import Mathlib

/-!
Verification development for the `consoletext` repository: a console-logging
interceptor in JavaScript shipped in two variants, a simple one
(`ConsoleText`, `src/src/ConsoleText.js`) and a richer one (`ConsoleIQ`,
`src/unnamed/part_001` and its revision `src/unnamed/part_002`).

The JavaScript is shallowly embedded here:

* JS values are `JSVal` (primitives, function identities, and heap
  references); mutable objects live in a `Heap` (a list indexed by reference
  number).  Machine details irrelevant to the claims are abstracted with a
  note at each definition: JS numbers are modelled as `Int`, and host data
  such as `process.argv` and timestamps are supplied by a `Host` record.
* JS exceptions are modelled with `Except JSErr`; `try`/`catch` placement is
  translated exactly from the source.
* Observable effects of a logging call (network POST attempts, calls through
  the pre-capture original console functions, a rejected detached promise)
  are collected in a `List Event` trace.
* The interception / restoration lifecycle is a state machine over a
  `Console` slot table and process hook lists, with function references
  modelled as identity tokens (`FnId`) so that JS `===` reference identity
  is equality of tokens.

Source files referenced below:
  part_001 = `src/unnamed/part_001`  (ConsoleIQ, first revision)
  part_002 = `src/unnamed/part_002`  (ConsoleIQ, revised serializer/shipper)
  CT       = `src/src/ConsoleText.js`
-/

namespace ConsoleTextSpec

/-! ## JS value domain -/

/-- A JS value: primitives, a function identity (functions are opaque, only
their identity matters), or a reference into the heap.  JS numbers are
modelled as `Int`; fractional values play no role in any claim. -/
inductive JSVal where
  | vundef : JSVal
  | vnull : JSVal
  | vbool : Bool → JSVal
  | vnum : Int → JSVal
  | vstr : String → JSVal
  | vfunc : Nat → JSVal
  | ref : Nat → JSVal
deriving DecidableEq

/-- A heap object.  `obj` carries its own enumerable string-keyed fields plus
a flag `strOk`: when false, string coercion of the object throws (modelling
an object whose `toString` throws — the "non-serializable argument" class).
`err` models an `Error` instance: `name`/`message`/`stack` (own,
non-enumerable in JS) and `extra`, its own custom properties.  The `stack`
is an arbitrary JS value: the runtime writes a string, but assignment can
put anything there (`e.stack = 42`), which matters to claim C2; a
reference-valued stack would be embedded by the source as a live object,
outside the transport-safe output domain, so the model keeps stacks
primitive.  The model restricts attention to errors whose custom
properties are enumerable (the generic case produced by plain assignment),
where `for..in` + `hasOwnProperty` (part_001) and
`Object.getOwnPropertyNames` minus name/message/stack (part_002) enumerate
the same fields. -/
inductive HObj where
  | arr : List JSVal → HObj
  | obj : List (String × JSVal) → Bool → HObj
  | err : String → String → JSVal → List (String × JSVal) → HObj
deriving DecidableEq

/-- The heap: object number `r` is `h[r]?`.  Allocation appends. -/
abbrev Heap := List HObj

/-- A serialized (transport-safe) value: the output domain of the payload
serializers — no references, no flags. -/
inductive SVal where
  | vundef : SVal
  | vnull : SVal
  | vbool : Bool → SVal
  | vnum : Int → SVal
  | vstr : String → SVal
  | vfunc : Nat → SVal
  | arr : List SVal → SVal
  | obj : List (String × SVal) → SVal

/-- JS exceptions are carried as their message string. -/
abbrev JSErr := String

/-- `typeof v === 'object' && v !== null` (only references are objects in the
model; `vnull` is JS `null`, excluded by the `!== null` guard). -/
def isObjRef : JSVal → Bool
  | JSVal.ref _ => true
  | _ => false

/-- Is `v` a reference to an `Error` instance (`v instanceof Error`)? -/
def isErrRef (h : Heap) : JSVal → Bool
  | JSVal.ref r =>
      match h[r]? with
      | some (HObj.err _ _ _ _) => true
      | _ => false
  | _ => false

/-- JS truthiness of a value. -/
def jsTruthy : JSVal → Bool
  | JSVal.vundef => false
  | JSVal.vnull => false
  | JSVal.vbool b => b
  | JSVal.vnum n => n != 0
  | JSVal.vstr s => s != ""
  | JSVal.vfunc _ => true
  | JSVal.ref _ => true

/-- A stack value that `_cleanStack` handles without throwing: a string, or
anything falsy (which the `if (!stack) return ` + quote-quote + ` guard
catches); a truthy non-string reaches `stack.split` and throws. -/
def benignStack : JSVal → Bool
  | JSVal.vstr _ => true
  | sv => !jsTruthy sv

/-! ## Configuration (constructor of part_001 / part_002, lines 28-43) -/

/-- The JS value supplied as `allowedLevels`: an actual array of level
names, or any primitive (the source keeps whatever truthy value was passed
— `config.allowedLevels || [...]` — and only calls `.includes` on it
later).  Reference values are not represented: a generic object's
`.includes` throws like the primitives here, and a heap-array config value
does not occur in the claims. -/
inductive LevelsVal where
  | list : List String → LevelsVal
  | str : String → LevelsVal
  | num : Int → LevelsVal
  | boolv : Bool → LevelsVal
  | nullv : LevelsVal
  | undefv : LevelsVal
deriving DecidableEq

/-- JS truthiness of an `allowedLevels` value (arrays are always truthy,
even empty). -/
def levelsTruthy : LevelsVal → Bool
  | LevelsVal.list _ => true
  | LevelsVal.str s => s != ""
  | LevelsVal.num n => n != 0
  | LevelsVal.boolv b => b
  | LevelsVal.nullv => false
  | LevelsVal.undefv => false

/-- `config.allowedLevels || d`: any truthy value is kept as-is. -/
def jsOrLevels (v : LevelsVal) (d : List String) : LevelsVal :=
  if levelsTruthy v then v else LevelsVal.list d

/-- `this.config.allowedLevels.includes(level)`: membership on an array;
substring test on a string (`String.prototype.includes`, with the level
names always nonempty); a TypeError on anything else — which propagates
into the caller of the logging entry point. -/
def levelsIncludes (v : LevelsVal) (level : String) : Except JSErr Bool :=
  match v with
  | LevelsVal.list l => Except.ok (l.contains level)
  | LevelsVal.str s => Except.ok ((s.splitOn level).length != 1)
  | _ => Except.error "this.config.allowedLevels.includes is not a function"

/-- Raw constructor input: each recognized option is either absent (`none`)
or present with a value.  Falsy-present values (`""`, `0`, `false`) are
representable and matter: the constructors use JS `||` defaulting.
`allowedLevels` is an arbitrary JS value (absent = `undefined`): the
constructor keeps whatever truthy value is passed, array or not, which
claim C2 exercises. -/
structure ConfigInput where
  endpoint : Option String := none
  apiKey : Option String := none
  colorize : Option Bool := none
  silent : Option Bool := none
  name : Option String := none
  allowedLevels : LevelsVal := LevelsVal.undefv
  captureGlobalErrors : Option Bool := none
  captureUnhandledRejections : Option Bool := none
  captureConsoleErrors : Option Bool := none
  autoTraceErrors : Option Bool := none
  enhanceErrors : Option Bool := none
  maxErrorDepth : Option Nat := none

/-- JS `x || d` for an optional string: absent or empty (falsy) yields `d`. -/
def jsOrStr (o : Option String) (d : String) : String :=
  match o with
  | none => d
  | some s => if s = "" then d else s

/-- JS `x || d` for an optional string with `null` default
(`config.apiKey || null`): absent or empty yields `none`. -/
def jsOrStrNull (o : Option String) : Option String :=
  match o with
  | none => none
  | some s => if s = "" then none else some s

/-- JS `x || d` for an optional natural number: absent or `0` (falsy)
yields `d`. -/
def jsOrNat (o : Option Nat) (d : Nat) : Nat :=
  match o with
  | none => d
  | some n => if n = 0 then d else n

/-- JS `x !== false` for an optional boolean (default true). -/
def jsNotFalse (o : Option Bool) : Bool :=
  match o with
  | none => true
  | some b => b

/-- JS `x || false` for an optional boolean (default false). -/
def jsOrFalse (o : Option Bool) : Bool :=
  match o with
  | none => false
  | some b => b

/-- Resolved configuration, as stored in `this.config` by the richer-variant
constructor.  `endpoint` is a plain string because the constructor always
produces one; the shipper re-checks its truthiness (`""` is falsy). -/
structure Config where
  endpoint : String
  apiKey : Option String
  colorize : Bool
  silent : Bool
  name : String
  allowedLevels : LevelsVal
  captureGlobalErrors : Bool
  captureUnhandledRejections : Bool
  captureConsoleErrors : Bool
  autoTraceErrors : Bool
  enhanceErrors : Bool
  maxErrorDepth : Nat
  environment : String
deriving DecidableEq

/-- The ConsoleIQ constructor, part_001/part_002 lines 28-43 (the two
revisions are character-identical here).  `env` is the result of the
`typeof window !== 'undefined'` capability probe ("browser" or "node"). -/
def mkConfig (c : ConfigInput) (env : String) : Config :=
  { endpoint := jsOrStr c.endpoint "https://api.consoleiq.io/logs"
    apiKey := jsOrStrNull c.apiKey
    colorize := jsNotFalse c.colorize
    silent := jsOrFalse c.silent
    name := jsOrStr c.name "ConsoleIQ"
    allowedLevels := jsOrLevels c.allowedLevels ["error", "text"]
    captureGlobalErrors := jsNotFalse c.captureGlobalErrors
    captureUnhandledRejections := jsNotFalse c.captureUnhandledRejections
    captureConsoleErrors := jsNotFalse c.captureConsoleErrors
    autoTraceErrors := jsNotFalse c.autoTraceErrors
    enhanceErrors := jsNotFalse c.enhanceErrors
    maxErrorDepth := jsOrNat c.maxErrorDepth 5
    environment := env }

/-- Resolved configuration of the simple variant (CT lines 23-31). -/
structure ConfigCT where
  endpoint : String
  apiKey : Option String
  colorize : Bool
  silent : Bool
  name : String
  allowedLevels : LevelsVal
deriving DecidableEq

/-- The ConsoleText constructor, CT lines 23-31. -/
def mkConfigCT (c : ConfigInput) : ConfigCT :=
  { endpoint := jsOrStr c.endpoint "https://api.consoletext.xyz/logs"
    apiKey := jsOrStrNull c.apiKey
    colorize := jsNotFalse c.colorize
    silent := jsOrFalse c.silent
    name := jsOrStr c.name "ConsoleText"
    allowedLevels := jsOrLevels c.allowedLevels ["text"] }

/-! ## Payload serializers

Both serializers walk arbitrary (possibly cyclic) heap graphs; recursion
depth is bounded by the `depth > maxErrorDepth` guard, so the embeddings
take a fuel parameter and the fuel-sufficiency theorem (claim C5) shows the
guard alone bounds the recursion.  The visited set (`WeakSet seen` in the
source) is threaded through the traversal exactly as the single mutated set
is shared across sibling branches in the source.  Per-property `try`/`catch`
in the source guards property reads; property reads are total in this model
(no getters), so those handlers are unreachable and not represented. -/

/-- Pass a non-reference JS value through to its serialized form
(the `return data` branches of both serializers). -/
def pvalToS : JSVal → SVal
  | JSVal.vundef => SVal.vundef
  | JSVal.vnull => SVal.vnull
  | JSVal.vbool b => SVal.vbool b
  | JSVal.vnum n => SVal.vnum n
  | JSVal.vstr s => SVal.vstr s
  | JSVal.vfunc f => SVal.vfunc f
  | JSVal.ref _ => SVal.vundef

/-- Element-wise serialization of a JS array
(`data.map(item => serialize(item, depth + 1))` in both serializers), with
the shared visited set threaded left to right; `ser` is the per-element
serializer at the decremented fuel.  `none` propagates fuel exhaustion. -/
def serListWith (ser : Nat → JSVal → List Nat → Option (SVal × List Nat))
    (depth : Nat) : List JSVal → List Nat → Option (List SVal × List Nat)
  | [], seen => some ([], seen)
  | v :: vs, seen =>
    match ser depth v seen with
    | some (s, seen') =>
        match serListWith ser depth vs seen' with
        | some (ss, seen'') => some (s :: ss, seen'')
        | none => none
    | none => none

/-- Key-wise serialization of object fields (the `for..in` +
`hasOwnProperty` loops, and the extra-property loop of the part_002 Error
case), with the shared visited set threaded left to right. -/
def serFieldsWith (ser : Nat → JSVal → List Nat → Option (SVal × List Nat))
    (depth : Nat) : List (String × JSVal) → List Nat →
      Option (List (String × SVal) × List Nat)
  | [], seen => some ([], seen)
  | (k, v) :: fs, seen =>
    match ser depth v seen with
    | some (s, seen') =>
        match serFieldsWith ser depth fs seen' with
        | some (ss, seen'') => some ((k, s) :: ss, seen'')
        | none => none
    | none => none

/-- part_002 `_prepareForSerialization` (lines 453-513): depth guard, then
primitive passthrough, then visited-set check, then Error / array / plain
object cases.  Children recurse at `depth + 1` with the updated visited
set.  Recursion is structural on the fuel; `none` means the fuel ran out
(shown unreachable in claim C5). -/
def prepFuel (h : Heap) (maxD : Nat) :
    Nat → Nat → JSVal → List Nat → Option (SVal × List Nat)
  | 0, _, _, _ => none
  | fuel + 1, depth, v, seen =>
    if maxD < depth then some (SVal.vstr "[Max Depth Reached]", seen)
    else
      match v with
      | JSVal.ref r =>
          if r ∈ seen then some (SVal.vstr "[Circular Reference]", seen)
          else
            match h[r]? with
            | some (HObj.err n m s extra) =>
                match serFieldsWith (prepFuel h maxD fuel) (depth + 1) extra (r :: seen) with
                | some (fs, seen') =>
                    some (SVal.obj ([("__type", SVal.vstr "Error"),
                      ("name", SVal.vstr n), ("message", SVal.vstr m),
                      ("stack", pvalToS s)] ++ fs), seen')
                | none => none
            | some (HObj.arr es) =>
                match serListWith (prepFuel h maxD fuel) (depth + 1) es (r :: seen) with
                | some (ss, seen') => some (SVal.arr ss, seen')
                | none => none
            | some (HObj.obj fields _) =>
                match serFieldsWith (prepFuel h maxD fuel) (depth + 1) fields (r :: seen) with
                | some (fs, seen') => some (SVal.obj fs, seen')
                | none => none
            | none => some (SVal.vundef, r :: seen)
      | v => some (pvalToS v, seen)

/-- Top-level call `this._prepareForSerialization(data)` (fresh visited set,
depth 0), with fuel `maxD + 2`, which claim C5 proves sufficient. -/
def prepare (h : Heap) (maxD : Nat) (v : JSVal) : SVal :=
  match prepFuel h maxD (maxD + 2) 0 v [] with
  | some (s, _) => s
  | none => SVal.vundef

/-- The inner `serialize` closure of part_001 `_serializeObject`
(lines 470-490): depth guard, visited-set check for objects, arrays
element-wise, everything else — including a nested `Error`, which this
revision does not special-case, so only its own enumerable (custom)
properties survive — via the `for..in` + `hasOwnProperty` loop. -/
def serializeInnerFuel (h : Heap) (maxD : Nat) :
    Nat → Nat → JSVal → List Nat → Option (SVal × List Nat)
  | 0, _, _, _ => none
  | fuel + 1, depth, v, seen =>
    if maxD < depth then some (SVal.vstr "[Max Depth Reached]", seen)
    else
      match v with
      | JSVal.ref r =>
          if r ∈ seen then some (SVal.vstr "[Circular Reference]", seen)
          else
            match h[r]? with
            | some (HObj.arr es) =>
                match serListWith (serializeInnerFuel h maxD fuel) (depth + 1) es (r :: seen) with
                | some (ss, seen') => some (SVal.arr ss, seen')
                | none => none
            | some (HObj.obj fields _) =>
                match serFieldsWith (serializeInnerFuel h maxD fuel) (depth + 1) fields (r :: seen) with
                | some (fs, seen') => some (SVal.obj fs, seen')
                | none => none
            | some (HObj.err _ _ _ extra) =>
                match serFieldsWith (serializeInnerFuel h maxD fuel) (depth + 1) extra (r :: seen) with
                | some (fs, seen') => some (SVal.obj fs, seen')
                | none => none
            | none => some (SVal.vundef, r :: seen)
      | v => some (pvalToS v, seen)

/-- part_001 `_serializeObject(obj, depth = 0)` (lines 452-493): depth
guard, then the `instanceof Error` case returning exactly
`\x7b __type, name, message, stack \x7d` (custom properties dropped), then
non-object passthrough, then the inner `serialize` closure with a fresh
visited set, entered at the same `depth`. -/
def serializeObject (h : Heap) (maxD : Nat) (v : JSVal) (depth : Nat) : SVal :=
  if maxD < depth then SVal.vstr "[Max Depth Reached]"
  else
    match v with
    | JSVal.ref r =>
        match h[r]? with
        | some (HObj.err n m s _) =>
            SVal.obj [("__type", SVal.vstr "Error"), ("name", SVal.vstr n),
              ("message", SVal.vstr m), ("stack", pvalToS s)]
        | _ =>
            match serializeInnerFuel h maxD (maxD + 2) depth v [] with
            | some (s, _) => s
            | none => SVal.vundef
    | v => pvalToS v

/-! ## Host data, events, coercions -/

/-- Host-supplied data: values the engine reads from the runtime rather
than computes (`new Date().toISOString()`, a freshly captured
`new Error().stack`, and the process identity used by the node context
block; `process.argv` is abstracted as a single string value — no claim
inspects it). -/
structure Host where
  now : String
  freshStack : String
  nodeVersion : String
  pid : Int
  cwd : String
  argv : String
deriving DecidableEq

/-- The console entry points either variant touches. -/
inductive Slot where
  | log | info | warn | error | debug | dir | table | time | timeEnd
  | trace | assert | text
deriving DecidableEq

/-- Observable effects of a logging call, in program order:
`post url level payload` is an attempted `axios.post` (headers, timestamp
and environment-metadata fields of the envelope are claim-irrelevant and
omitted; `payload` is the `messages` list of part_001 or the singleton
rendered `message` of part_002/CT); `out s args` is a call through the
constructor-snapshot ("pre-capture original") console function for slot
`s`; `asyncRejected` marks a detached promise that rejected (observable
as an unhandled rejection, not as a throw into the caller). -/
inductive Event where
  | post : String → String → List SVal → Event
  | out : Slot → List JSVal → Event
  | asyncRejected : JSErr → Event

/-- The slot named by a level string in the `originalConsole` table
(`none` models an `undefined` entry, calling which would throw). -/
def levelSlot (l : String) : Option Slot :=
  if l = "log" then some Slot.log
  else if l = "info" then some Slot.info
  else if l = "warn" then some Slot.warn
  else if l = "error" then some Slot.error
  else if l = "debug" then some Slot.debug
  else if l = "dir" then some Slot.dir
  else if l = "table" then some Slot.table
  else if l = "time" then some Slot.time
  else if l = "timeEnd" then some Slot.timeEnd
  else if l = "trace" then some Slot.trace
  else if l = "assert" then some Slot.assert
  else none

/-- `typeof v === 'object'` (in JS this includes `null`). -/
def typeofIsObject : JSVal → Bool
  | JSVal.ref _ => true
  | JSVal.vnull => true
  | _ => false

/-- JS `String(v)`: total on primitives and functions; on an object it
invokes `toString`, which the `strOk` flag controls; array and Error
rendering is abstracted (total in JS for the data this model builds). -/
def jsToString (h : Heap) : JSVal → Except JSErr String
  | JSVal.vundef => Except.ok "undefined"
  | JSVal.vnull => Except.ok "null"
  | JSVal.vbool b => Except.ok (if b then "true" else "false")
  | JSVal.vnum n => Except.ok (toString n)
  | JSVal.vstr s => Except.ok s
  | JSVal.vfunc _ => Except.ok "function"
  | JSVal.ref r =>
      match h[r]? with
      | some (HObj.obj _ strOk) =>
          if strOk then Except.ok "[object Object]"
          else Except.error "Cannot convert object to primitive value"
      | some (HObj.arr _) => Except.ok "[array]"
      | some (HObj.err n m _ _) => Except.ok (n ++ ": " ++ m)
      | none => Except.ok "undefined"

/-- Sequence a list of fallible computations, stopping at the first error
(the behaviour of a JS `Array.prototype.map` whose callback throws). -/
def exceptSeq : List (Except JSErr String) → Except JSErr (List String)
  | [] => Except.ok []
  | Except.ok s :: rest =>
      match exceptSeq rest with
      | Except.ok ss => Except.ok (s :: ss)
      | Except.error e => Except.error e
  | Except.error e :: _ => Except.error e

/-- JS `JSON.stringify(v)` modelled with an ancestor stack: a reference
already on the current path throws (circular structure); rendering is
abstracted to a bracket-free concatenation — only success or failure
matters to any claim.  String coercion flags are irrelevant here
(`JSON.stringify` reads properties, it does not call `toString`).
Fuel is structural; a path longer than the heap necessarily repeats a
reference, so with fuel `h.length + 2` the circular check always fires
before exhaustion, and the exhaustion case returns the same error. -/
def jsonFuel (h : Heap) : Nat → JSVal → List Nat → Except JSErr String
  | 0, _, _ => Except.error "Converting circular structure to JSON"
  | fuel + 1, v, ancestors =>
    match v with
    | JSVal.vundef => Except.ok "null"
    | JSVal.vnull => Except.ok "null"
    | JSVal.vbool b => Except.ok (if b then "true" else "false")
    | JSVal.vnum n => Except.ok (toString n)
    | JSVal.vstr s => Except.ok s
    | JSVal.vfunc _ => Except.ok "null"
    | JSVal.ref r =>
        if r ∈ ancestors then Except.error "Converting circular structure to JSON"
        else
          match h[r]? with
          | some (HObj.arr es) =>
              match exceptSeq (es.map (fun e => jsonFuel h fuel e (r :: ancestors))) with
              | Except.ok ss => Except.ok (String.intercalate "," ss)
              | Except.error e => Except.error e
          | some (HObj.obj fields _) =>
              match exceptSeq (fields.map (fun kv =>
                  match jsonFuel h fuel kv.2 (r :: ancestors) with
                  | Except.ok s => Except.ok (kv.1 ++ ":" ++ s)
                  | Except.error e => Except.error e)) with
              | Except.ok ss => Except.ok (String.intercalate "," ss)
              | Except.error e => Except.error e
          | some (HObj.err _ _ _ extra) =>
              match exceptSeq (extra.map (fun kv =>
                  match jsonFuel h fuel kv.2 (r :: ancestors) with
                  | Except.ok s => Except.ok (kv.1 ++ ":" ++ s)
                  | Except.error e => Except.error e)) with
              | Except.ok ss => Except.ok (String.intercalate "," ss)
              | Except.error e => Except.error e
          | none => Except.ok "null"

/-- Top-level `JSON.stringify(v)`. -/
def jsonStringify (h : Heap) (v : JSVal) : Except JSErr String :=
  jsonFuel h (h.length + 2) v []

/-- Modelled from the spec: `applyColor` lives in `src/utils/colorizer.js`,
which is absent from the provided sources.  Spec section 2 describes the
Color Mapper as a pure, stateless level-to-decoration transform, and no
claim depends on the decoration content, so it is modelled as the identity
on the argument list. -/
def applyColor (_level : String) (args : List JSVal) : List JSVal := args

/-- `_applyColorAndLog` (part_001/part_002 lines 391-399, CT lines 112-119
are the same function modulo class): route to the constructor-snapshot
console function for the level (`text` maps to `log`), colorizing first
unless disabled.  Looking up an unknown level would call `undefined` and
throw — that is the error case (unreachable from the installed wrappers). -/
def applyColorAndLog (colorize : Bool) (level : String) (args : List JSVal) :
    List Event × Except JSErr Unit :=
  match levelSlot (if level = "text" then "log" else level) with
  | some s =>
      ([Event.out s (if colorize then applyColor level args else args)], Except.ok ())
  | none => ([], Except.error "console method is not a function")

/-! ## Error enhancement (part_001/part_002 lines 201-271) -/

/-- `_cleanStack` (lines 264-271): a falsy stack yields `""`; a string has
every line mentioning an engine-internal frame dropped; any truthy
non-string value reaches `stack.split(...)` — not a function — and throws a
TypeError, with no try/catch between here and the logging entry point. -/
def cleanStack (stack : JSVal) : Except JSErr JSVal :=
  if !jsTruthy stack then Except.ok (JSVal.vstr "")
  else
    match stack with
    | JSVal.vstr s =>
        Except.ok (JSVal.vstr (String.intercalate "\n"
          ((s.splitOn "\n").filter (fun l => (l.splitOn "ConsoleIQ.").length == 1))))
    | _ => Except.error "stack.split is not a function"

/-- First value under key `k` (JS property lookup on a plain object). -/
def getField (fields : List (String × JSVal)) (k : String) : JSVal :=
  match fields.find? (fun p => p.1 = k) with
  | some p => p.2
  | none => JSVal.vundef

/-- `_enhanceError` (part_001/part_002 lines 201-234) in a Node runtime
(`typeof window === 'undefined'`, `typeof process !== 'undefined'`).
When enhancement is enabled it builds a FRESH PLAIN OBJECT — not an Error
instance: spreading an Error copies only its own enumerable (custom)
properties — adding source/timestamp/loggerName/environment/stack and the
node context block.  `error.stack || new Error().stack` keeps whatever
truthy value the `stack` property holds; under the default
`autoTraceErrors` it is passed to `_cleanStack`, whose TypeError on a
truthy non-string propagates out of this function (there is no try/catch
on any call path from a logging entry point).  Duplicate keys between the
spread and the added fields are not modelled (no claim exercises colliding
keys). -/
def enhanceError (cfg : Config) (host : Host) (h : Heap) (v : JSVal)
    (source : String) : Except JSErr (Heap × JSVal) :=
  if !cfg.enhanceErrors then Except.ok (h, v)
  else
    let spreadFields : List (String × JSVal) :=
      match v with
      | JSVal.ref r =>
          match h[r]? with
          | some (HObj.err _ _ _ extra) => extra
          | some (HObj.obj fields _) => fields
          | _ => []
      | _ => []
    let stack0 : JSVal :=
      match v with
      | JSVal.ref r =>
          match h[r]? with
          | some (HObj.err _ _ s _) => s
          | some (HObj.obj fields _) => getField fields "stack"
          | _ => JSVal.vundef
      | _ => JSVal.vundef
    let stack1 := if jsTruthy stack0 then stack0 else JSVal.vstr host.freshStack
    match (if cfg.autoTraceErrors then cleanStack stack1 else Except.ok stack1) with
    | Except.error e => Except.error e
    | Except.ok stackF =>
        let h1 := h ++ [HObj.obj
          [("version", JSVal.vstr host.nodeVersion), ("pid", JSVal.vnum host.pid),
           ("cwd", JSVal.vstr host.cwd), ("argv", JSVal.vstr host.argv)] true]
        let h2 := h1 ++ [HObj.obj
          (spreadFields ++
            [("source", JSVal.vstr source), ("timestamp", JSVal.vstr host.now),
             ("loggerName", JSVal.vstr cfg.name),
             ("environment", JSVal.vstr cfg.environment),
             ("stack", stackF), ("node", JSVal.ref h.length)]) true]
        Except.ok (h2, JSVal.ref h1.length)

/-- The argument map of `_handleLog` (lines 357-362) and of the
console-error capture wrapper (lines 182-187): `_enhanceError` on every
`instanceof Error` argument, identity elsewhere, threading allocations; a
throw from `_enhanceError` aborts the map and propagates. -/
def enhanceArgs (cfg : Config) (host : Host) (source : String) :
    Heap → List JSVal → Except JSErr (Heap × List JSVal)
  | h, [] => Except.ok (h, [])
  | h, a :: as =>
      match (if isErrRef h a then enhanceError cfg host h a source
             else Except.ok (h, a)) with
      | Except.error e => Except.error e
      | Except.ok p =>
          match enhanceArgs cfg host source p.1 as with
          | Except.error e => Except.error e
          | Except.ok q => Except.ok (q.1, p.2 :: q.2)

/-- The `stack` property of an `Error` reference (`undefined` elsewhere —
property access on a non-Error is not taken by the callers). -/
def errStackOf (h : Heap) : JSVal → JSVal
  | JSVal.ref r =>
      match h[r]? with
      | some (HObj.err _ _ s _) => s
      | _ => JSVal.vundef
  | _ => JSVal.vundef

/-! ## Remote shippers -/

/-- The one-line failure report of the part_001/part_002 catch blocks
(lines 438-442): two arguments through the pre-capture original
`console.error`. -/
def failureReport (e : JSErr) : Event :=
  Event.out Slot.error [JSVal.vstr "ConsoleIQ: Failed to send log:", JSVal.vstr e]

/-- part_001 `_sendToServer` (lines 408-443): guard on a falsy endpoint;
the try block builds `messages` (objects through `_serializeObject` at
depth 0, everything else through `String(...)` — only non-objects reach
the coercion, so the body itself cannot throw) and attempts the POST;
`net` is the transport outcome.  The catch reports the failure once
through the pre-capture original error entry point unless silent, and
swallows it — no outcome escapes this function. -/
def sendToServerIQ1 (cfg : Config) (level : String) (args : List JSVal)
    (h : Heap) (net : Except JSErr Unit) : List Event :=
  if cfg.endpoint = "" then []
  else
    let messages := args.map (fun a =>
      if isObjRef a then serializeObject h cfg.maxErrorDepth a 0
      else SVal.vstr ((jsToString h a).toOption.getD ""))
    match net with
    | Except.ok _ => [Event.post cfg.endpoint level messages]
    | Except.error e =>
        Event.post cfg.endpoint level messages ::
          (if !cfg.silent then [failureReport e] else [])

/-- The Error branch of part_002 `_formatConsoleLike` (lines 528-534):
`JSON.stringify` of a fresh record carrying message/name/stack and the
property descriptors of the Error's own properties; it fails exactly when
serializing some custom-property value hits a cycle. -/
def jsonErrDescr (h : Heap) (v : JSVal) : Except JSErr String :=
  match v with
  | JSVal.ref r =>
      match h[r]? with
      | some (HObj.err n m s extra) =>
          match jsonStringify h s with
          | Except.error e => Except.error e
          | Except.ok sstr =>
              match exceptSeq (extra.map (fun kv =>
                  match jsonStringify h kv.2 with
                  | Except.ok str => Except.ok (kv.1 ++ ":" ++ str)
                  | Except.error e => Except.error e)) with
              | Except.ok ss =>
                  Except.ok (String.intercalate ","
                    (("message:" ++ m) :: ("name:" ++ n) ::
                      ("stack:" ++ sstr) :: ss))
              | Except.error e => Except.error e
      | _ => jsonStringify h v
  | _ => jsonStringify h v

/-- The per-argument body of part_002 `_formatConsoleLike` (lines 524-543):
objects go through `JSON.stringify` (Errors via the descriptor record) with
an inner catch falling back to `String(arg)` — whose own throw escapes the
inner catch; non-objects go straight to `String(arg)` (total there). -/
def formatArgV2 (h : Heap) (a : JSVal) : Except JSErr String :=
  if isObjRef a then
    match (if isErrRef h a then jsonErrDescr h a else jsonStringify h a) with
    | Except.ok s => Except.ok s
    | Except.error _ => jsToString h a
  else jsToString h a

/-- part_002 `_formatConsoleLike` (lines 522-549): the outer try joins the
per-argument renderings; the outer catch retries with plain `String(...)`
coercion, whose failure escapes the function (to be caught — or not — by
the caller). -/
def formatConsoleLike (h : Heap) (args : List JSVal) : Except JSErr String :=
  match exceptSeq (args.map (formatArgV2 h)) with
  | Except.ok parts => Except.ok (String.intercalate " " parts)
  | Except.error _ =>
      match exceptSeq (args.map (fun a => jsToString h a)) with
      | Except.ok parts => Except.ok (String.intercalate " " parts)
      | Except.error e => Except.error e

/-- part_002 `_sendToServer` (lines 408-443): the try block renders the
single `message` via `_formatConsoleLike` (which may throw — then the catch
fires with no POST attempted), then attempts the POST; the catch reports
once through the pre-capture original error entry point unless silent.
The `stack`/metadata envelope fields are claim-irrelevant and omitted. -/
def sendToServerIQ2 (cfg : Config) (level : String) (args : List JSVal)
    (h : Heap) (net : Except JSErr Unit) : List Event :=
  if cfg.endpoint = "" then []
  else
    match formatConsoleLike h args with
    | Except.error e => if !cfg.silent then [failureReport e] else []
    | Except.ok msg =>
        match net with
        | Except.ok _ => [Event.post cfg.endpoint level [SVal.vstr msg]]
        | Except.error e =>
            Event.post cfg.endpoint level [SVal.vstr msg] ::
              (if !cfg.silent then [failureReport e] else [])

/-- The two ConsoleIQ revisions, which differ only in `_sendToServer` and
its helpers. -/
inductive Rev where
  | v1 | v2
deriving DecidableEq

/-- Dispatch to the revision's `_sendToServer`. -/
def sendToServerIQ (rev : Rev) (cfg : Config) (level : String)
    (args : List JSVal) (h : Heap) (net : Except JSErr Unit) : List Event :=
  match rev with
  | Rev.v1 => sendToServerIQ1 cfg level args h net
  | Rev.v2 => sendToServerIQ2 cfg level args h net

/-- CT `_sendToServer` (lines 128-152).  The payload is built BEFORE the
try block, so a `JSON.stringify` failure (cyclic argument) escapes the
async function as a promise rejection — the second component; it is never
a synchronous throw into the caller, and the catch (which covers only the
POST) reports a transport failure through the pre-capture original error
entry point with no silent check. -/
def sendToServerCT (cfg : ConfigCT) (level : String) (args : List JSVal)
    (h : Heap) (net : Except JSErr Unit) : List Event × Except JSErr Unit :=
  if cfg.endpoint = "" then ([], Except.ok ())
  else
    match exceptSeq (args.map (fun a =>
        if typeofIsObject a then jsonStringify h a else jsToString h a)) with
    | Except.error e => ([], Except.error e)
    | Except.ok parts =>
        let payload := [SVal.vstr (String.intercalate " " parts)]
        match net with
        | Except.ok _ => ([Event.post cfg.endpoint level payload], Except.ok ())
        | Except.error e =>
            ([Event.post cfg.endpoint level payload,
              Event.out Slot.error
                [JSVal.vstr ("ConsoleText: Failed to send log: " ++ e)]],
             Except.ok ())

/-! ## Logging entry points -/

/-- The auto-trace step of `_handleLog` (lines 374-381): the first
still-`instanceof Error` argument with a truthy stack yields one
trace-level local line with that stack; otherwise, in the browser
environment only, a synthetic stack is traced; otherwise nothing. -/
def autoTraceTail (cfg : Config) (host : Host) (h1 : Heap)
    (enh : List JSVal) : List Event × Except JSErr Unit :=
  match enh.find? (fun a => isErrRef h1 a) with
  | some ea =>
      if jsTruthy (errStackOf h1 ea) then
        applyColorAndLog cfg.colorize "trace" [errStackOf h1 ea]
      else if cfg.environment = "browser" then
        applyColorAndLog cfg.colorize "trace" [JSVal.vstr host.freshStack]
      else ([], Except.ok ())
  | none =>
      if cfg.environment = "browser" then
        applyColorAndLog cfg.colorize "trace" [JSVal.vstr host.freshStack]
      else ([], Except.ok ())

/-- The shipping guard
`this.config.endpoint && this.config.allowedLevels.includes(level)`
(part_001/part_002 line 365, also lines 96, 181, 338; CT lines 73-75,
94-97): `&&` short-circuits on a falsy endpoint, otherwise `.includes` runs
— and throws for a truthy non-array, non-string `allowedLevels`,
propagating into the caller of the wrapper. -/
def sendDecision (endpoint : String) (levels : LevelsVal) (level : String) :
    Except JSErr Bool :=
  if endpoint = "" then Except.ok false
  else levelsIncludes levels level

/-- part_001/part_002 `_handleLog` (lines 355-383; character-identical in
both revisions): enhance `instanceof Error` arguments (a throw there
propagates with nothing logged), dispatch to the shipper when endpoint and
level allow (a throw from the `.includes` guard likewise propagates; the
dispatch is not awaited and its events join the trace), then, unless
silent, colorized local output through the pre-capture original entry
point followed by the auto-trace step for error level.  The second
component is the synchronous outcome the caller sees. -/
def handleLogIQ (rev : Rev) (cfg : Config) (host : Host) (h : Heap)
    (level : String) (args : List JSVal) (net : Except JSErr Unit) :
    List Event × Except JSErr Unit :=
  match enhanceArgs cfg host ("console." ++ level) h args with
  | Except.error e => ([], Except.error e)
  | Except.ok p =>
      match sendDecision cfg.endpoint cfg.allowedLevels level with
      | Except.error e => ([], Except.error e)
      | Except.ok doSend =>
          let sendEvents :=
            if doSend then sendToServerIQ rev cfg level p.2 p.1 net else []
          if cfg.silent then (sendEvents, Except.ok ())
          else
            let l1 := applyColorAndLog cfg.colorize level p.2
            match l1.2 with
            | Except.error e => (sendEvents ++ l1.1, Except.error e)
            | Except.ok _ =>
                if level = "error" ∧ cfg.autoTraceErrors then
                  let t := autoTraceTail cfg host p.1 p.2
                  (sendEvents ++ l1.1 ++ t.1, t.2)
                else (sendEvents ++ l1.1, Except.ok ())

/-- The `console.text` wrapper installed by part_001/part_002 `init`
(lines 95-102): ship when endpoint and `"text"` allow (arguments are NOT
enhanced), then local output unless silent. -/
def textEntryIQ (rev : Rev) (cfg : Config) (h : Heap) (args : List JSVal)
    (net : Except JSErr Unit) : List Event × Except JSErr Unit :=
  match sendDecision cfg.endpoint cfg.allowedLevels "text" with
  | Except.error e => ([], Except.error e)
  | Except.ok doSend =>
      let sendEvents :=
        if doSend then sendToServerIQ rev cfg "text" args h net else []
      if cfg.silent then (sendEvents, Except.ok ())
      else
        let l := applyColorAndLog cfg.colorize "text" args
        (sendEvents ++ l.1, l.2)

/-- The pass-through wrappers installed by part_001/part_002 `init`
(lines 85-92) over dir/table/time/timeEnd/trace/assert: forward to the
snapshot function unless silent; nothing is shipped. -/
def otherEntryIQ (cfg : Config) (s : Slot) (args : List JSVal) :
    List Event × Except JSErr Unit :=
  if cfg.silent then ([], Except.ok ()) else ([Event.out s args], Except.ok ())

/-- part_001/part_002 `_handleConsoleError` (lines 337-347): when endpoint
and error level allow, map `_enhanceError` over the arguments (a second
time — already-enhanced plain records are no longer `instanceof Error` and
pass unchanged) and ship at level error.  The second component carries a
throw from the guard or the map. -/
def handleConsoleErrorIQ (rev : Rev) (cfg : Config) (host : Host) (h : Heap)
    (args : List JSVal) (net : Except JSErr Unit) :
    List Event × Except JSErr Unit :=
  match sendDecision cfg.endpoint cfg.allowedLevels "error" with
  | Except.error e => ([], Except.error e)
  | Except.ok doSend =>
      if doSend then
        match enhanceArgs cfg host "console.error" h args with
        | Except.error e => ([], Except.error e)
        | Except.ok p =>
            (sendToServerIQ rev cfg "error" p.2 p.1 net, Except.ok ())
      else ([], Except.ok ())

/-- The `captureConsoleErrors` wrapper that `_setupErrorHandlers`
(part_001/part_002 lines 179-191) installs over `console.error` AFTER
`init` installed the level wrapper — so with the default configuration
this is the actual error-level logging entry point.  It enhances Error
arguments, runs `_handleConsoleError` on the enhanced list, then calls
`this.originalConsoleError` (the engine's own level wrapper captured at
setup time) with the ORIGINAL arguments, i.e. `_handleLog("error", args)`.
Two POSTs can result; `net1`/`net2` are their outcomes. -/
def consoleErrorEntryIQ (rev : Rev) (cfg : Config) (host : Host) (h : Heap)
    (args : List JSVal) (net1 net2 : Except JSErr Unit) :
    List Event × Except JSErr Unit :=
  match enhanceArgs cfg host "console.error" h args with
  | Except.error e => ([], Except.error e)
  | Except.ok p =>
      match handleConsoleErrorIQ rev cfg host p.1 p.2 net1 with
      | (es1, Except.error e) => (es1, Except.error e)
      | (es1, Except.ok _) =>
          let q := handleLogIQ rev cfg host p.1 "error" args net2
          (es1 ++ q.1, q.2)

/-- CT `_handleLog` (lines 92-104): ship when endpoint and level allow
(no enhancement, no auto-trace), then local output unless silent.  A
rejection of the un-awaited shipper surfaces as an `asyncRejected` trace
event, never as the caller's outcome. -/
def handleLogCT (cfg : ConfigCT) (h : Heap) (level : String)
    (args : List JSVal) (net : Except JSErr Unit) :
    List Event × Except JSErr Unit :=
  match sendDecision cfg.endpoint cfg.allowedLevels level with
  | Except.error e => ([], Except.error e)
  | Except.ok doSend =>
      let sendp :=
        if doSend then sendToServerCT cfg level args h net
        else ([], Except.ok ())
      let asyncEvents := sendp.1 ++
        (match sendp.2 with
         | Except.ok _ => []
         | Except.error e => [Event.asyncRejected e])
      if cfg.silent then (asyncEvents, Except.ok ())
      else
        let l := applyColorAndLog cfg.colorize level args
        (asyncEvents ++ l.1, l.2)

/-- The `console.text` wrapper installed by CT `init` (lines 71-81). -/
def textEntryCT (cfg : ConfigCT) (h : Heap) (args : List JSVal)
    (net : Except JSErr Unit) : List Event × Except JSErr Unit :=
  match sendDecision cfg.endpoint cfg.allowedLevels "text" with
  | Except.error e => ([], Except.error e)
  | Except.ok doSend =>
      let sendp :=
        if doSend then sendToServerCT cfg "text" args h net
        else ([], Except.ok ())
      let asyncEvents := sendp.1 ++
        (match sendp.2 with
         | Except.ok _ => []
         | Except.error e => [Event.asyncRejected e])
      if cfg.silent then (asyncEvents, Except.ok ())
      else
        let l := applyColorAndLog cfg.colorize "text" args
        (asyncEvents ++ l.1, l.2)

/-- The pass-through wrappers installed by CT `init` (lines 61-68). -/
def otherEntryCT (cfg : ConfigCT) (s : Slot) (args : List JSVal) :
    List Event × Except JSErr Unit :=
  if cfg.silent then ([], Except.ok ()) else ([Event.out s args], Except.ok ())

/-! ## Event counting -/

/-- Number of POST attempts in a trace. -/
def postCount (es : List Event) : Nat :=
  es.countP (fun e =>
    match e with
    | Event.post _ _ _ => true
    | _ => false)

/-- Number of calls through the pre-capture original error entry point. -/
def errOutCount (es : List Event) : Nat :=
  es.countP (fun e =>
    match e with
    | Event.out Slot.error _ => true
    | _ => false)

/-- The calls through the pre-capture original trace entry point. -/
def traceOuts (es : List Event) : List Event :=
  es.filter (fun e =>
    match e with
    | Event.out Slot.trace _ => true
    | _ => false)

/-- A fixed host record for concrete computations. -/
def defaultHost : Host :=
  { now := "2026-01-01T00:00:00.000Z"
    freshStack := "Error\n    at app (app.js:1:1)"
    nodeVersion := "v20.0.0"
    pid := 1234
    cwd := "/app"
    argv := "node app.js" }

/-! ## Interception lifecycle state machine (init / restore)

Function references are modelled as identity tokens so that JS `===` on
functions is token equality.  The Node branch of the environment probes is
modelled (`typeof window === 'undefined'`, `typeof process !== 'undefined'`);
global handler state is the process listener lists for the two events. -/

/-- A function reference.  `host s` is the pristine console function for
slot `s`; wrapper constructors carry the installing instance id (`stdWrap`
is a recorded `_consoleWrappers` entry, `otherWrap` a pass-through closure,
`textWrap` the `console.text` closure, `captureWrap` the
`captureConsoleErrors` override, the hook constructors the engine's process
listeners, the `ct` family the ConsoleText wrappers); `foreignFn` is any other
function (e.g. a pre-existing global handler); `undef` an absent slot. -/
inductive FnId where
  | undef
  | host : Slot → FnId
  | stdWrap : Nat → Slot → FnId
  | otherWrap : Nat → Slot → FnId
  | textWrap : Nat → FnId
  | captureWrap : Nat → FnId
  | uncaughtHook : Nat → FnId
  | rejectionHook : Nat → FnId
  | ctWrap : Nat → Slot → FnId
  | ctOtherWrap : Nat → Slot → FnId
  | ctTextWrap : Nat → FnId
  | foreignFn : Nat → FnId
deriving DecidableEq

/-- The global console object: the current function in each slot. -/
abbrev Console := Slot → FnId

/-- Node global handler state: the listener lists of
`process.on('uncaughtException')` and `process.on('unhandledRejection')`. -/
structure Hooks where
  uncaught : List FnId
  rejection : List FnId
deriving DecidableEq

/-- The five standard leveled entry points (part_001 line 78). -/
def stdSlots : List Slot :=
  [Slot.log, Slot.info, Slot.warn, Slot.error, Slot.debug]

/-- The pass-through entry points of the richer variant (line 85). -/
def otherSlots : List Slot :=
  [Slot.dir, Slot.table, Slot.time, Slot.timeEnd, Slot.trace, Slot.assert]

/-- The pass-through entry points of ConsoleText (CT line 61, no assert). -/
def ctOtherSlots : List Slot :=
  [Slot.dir, Slot.table, Slot.time, Slot.timeEnd, Slot.trace]

/-- The keys of ConsoleText's `originalConsole` snapshot (CT lines 34-46):
everything but `assert`. -/
def ctSlots : List Slot :=
  [Slot.log, Slot.info, Slot.warn, Slot.error, Slot.debug, Slot.dir,
   Slot.table, Slot.time, Slot.timeEnd, Slot.trace, Slot.text]

/-- JS `cur === maybeRecorded` where the recorded side may be `undefined`
(an unset instance field or a missing table entry): `undefined === undefined`
is true, and a function equals only itself. -/
def jsUndefEq (cur : FnId) (o : Option FnId) : Bool :=
  match o with
  | some w => cur = w
  | none => cur = FnId.undef

/-- Instance state of the richer variant relevant to init/restore. -/
structure IQInst where
  id : Nat
  cfg : Config
  originalConsole : Slot → FnId
  consoleWrappers : Slot → Option FnId
  textWrapper : Option FnId
  originalConsoleError : Option FnId
  origOnError : Option FnId
  origOnRejection : Option FnId
  initialized : Bool

/-- The ConsoleIQ constructor's state effects (part_001 lines 28-69):
snapshot the current console functions (`text` snapshots `console.log`),
null error-handler slots, not initialized.  `this._textWrapper` is NEVER
assigned anywhere in the source — the field stays undefined forever. -/
def mkIQ (id : Nat) (cfg : Config) (c : Console) : IQInst :=
  { id := id
    cfg := cfg
    originalConsole := fun s => if s = Slot.text then c Slot.log else c s
    consoleWrappers := fun _ => none
    textWrapper := none
    originalConsoleError := none
    origOnError := none
    origOnRejection := none
    initialized := false }

/-- `init` (part_001 lines 75-109) with `_setupErrorHandlers`
(lines 115-192), Node branch: record and install the five standard
wrappers; install pass-through wrappers and the `console.text` closure
WITHOUT recording them anywhere; when capturing, remember the LAST
previously registered process listener (`listeners(...).pop() || null`),
remove all listeners and install the engine's handler; when capturing
console errors, remember the CURRENT `console.error` (which is by now the
engine's own level wrapper) and install the capture wrapper over it. -/
def initIQ (inst : IQInst) (c : Console) (hk : Hooks) :
    IQInst × Console × Hooks :=
  let wrappers : Slot → Option FnId := fun s =>
    if s ∈ stdSlots then some (FnId.stdWrap inst.id s) else none
  let c1 : Console := fun s =>
    if s ∈ stdSlots then FnId.stdWrap inst.id s else c s
  let c2 : Console := fun s =>
    if s ∈ otherSlots then FnId.otherWrap inst.id s else c1 s
  let c3 : Console := fun s =>
    if s = Slot.text then FnId.textWrap inst.id else c2 s
  let origOnError :=
    if inst.cfg.captureGlobalErrors then hk.uncaught.getLast? else inst.origOnError
  let hk1 :=
    if inst.cfg.captureGlobalErrors then
      { hk with uncaught := [FnId.uncaughtHook inst.id] }
    else hk
  let origOnRejection :=
    if inst.cfg.captureUnhandledRejections then hk1.rejection.getLast?
    else inst.origOnRejection
  let hk2 :=
    if inst.cfg.captureUnhandledRejections then
      { hk1 with rejection := [FnId.rejectionHook inst.id] }
    else hk1
  let originalConsoleError :=
    if inst.cfg.captureConsoleErrors then some (c3 Slot.error)
    else inst.originalConsoleError
  let c4 : Console := fun s =>
    if inst.cfg.captureConsoleErrors ∧ s = Slot.error then
      FnId.captureWrap inst.id
    else c3 s
  ({ inst with
      consoleWrappers := wrappers
      originalConsoleError := originalConsoleError
      origOnError := origOnError
      origOnRejection := origOnRejection
      initialized := true }, c4, hk2)

/-- `restore` (part_001 lines 535-595), Node branch: no-op when never
initialized; per snapshot key, write the original back only when the
current function `===` the recorded wrapper (`_consoleWrappers` holds only
the five standard wrappers, so the other keys never match — unless both
sides are `undefined`); delete `console.text` only when it `===` the
never-assigned `this._textWrapper`; reattach a remembered process listener
when it is a function (when `null` was remembered, the engine's own
listener STAYS installed); finally, when console errors were captured,
unconditionally write `this.originalConsoleError` back over
`console.error`. -/
def restoreIQ (inst : IQInst) (c : Console) (hk : Hooks) :
    IQInst × Console × Hooks :=
  if !inst.initialized then (inst, c, hk)
  else
    let c1 : Console := fun s =>
      if jsUndefEq (c s) (inst.consoleWrappers s) then inst.originalConsole s
      else c s
    let c2 : Console := fun s =>
      if s = Slot.text ∧ jsUndefEq (c1 Slot.text) inst.textWrapper then
        FnId.undef
      else c1 s
    let hk1 :=
      match inst.origOnError with
      | some f => { hk with uncaught := [f] }
      | none => hk
    let hk2 :=
      match inst.origOnRejection with
      | some f => { hk1 with rejection := [f] }
      | none => hk1
    let c3 : Console := fun s =>
      if inst.cfg.captureConsoleErrors ∧ s = Slot.error then
        match inst.originalConsoleError with
        | some f => f
        | none => c2 s
      else c2 s
    ({ inst with initialized := false }, c3, hk2)

/-- ConsoleText instance state: only the snapshot (CT records no wrapper
references and no initialized flag). -/
structure CTInst where
  id : Nat
  originalConsole : Slot → FnId

/-- The ConsoleText constructor (CT lines 23-47): snapshot everything but
`assert` (`text` snapshots `console.log`; the unused `assert` entry is
absent, i.e. `undefined`). -/
def mkCT (id : Nat) (c : Console) : CTInst :=
  { id := id
    originalConsole := fun s =>
      if s = Slot.text then c Slot.log
      else if s = Slot.assert then FnId.undef
      else c s }

/-- CT `init` (lines 53-84): install level, pass-through and text wrappers
(none recorded); no error hooks. -/
def initCT (inst : CTInst) (c : Console) : Console := fun s =>
  if s ∈ stdSlots then FnId.ctWrap inst.id s
  else if s ∈ ctOtherSlots then FnId.ctOtherWrap inst.id s
  else if s = Slot.text then FnId.ctTextWrap inst.id
  else c s

/-- CT `restore` (lines 158-168): UNCONDITIONALLY copy every snapshot
entry back over the current console — no reference-identity check, no
initialized guard — then delete `console.text`. -/
def restoreCT (inst : CTInst) (c : Console) : Console := fun s =>
  if s = Slot.text then FnId.undef
  else if s ∈ ctSlots then inst.originalConsole s
  else c s

/-- The pristine host console: every standard slot holds its host
function; `console.text` does not exist. -/
def pristineConsole : Console := fun s =>
  if s = Slot.text then FnId.undef else FnId.host s

/-- Initialize a default-configured engine over the pristine console with
no pre-existing process listeners (the C1 scenario). -/
def c1AfterInit : IQInst × Console × Hooks :=
  initIQ (mkIQ 0 (mkConfig {} "node") pristineConsole) pristineConsole
    { uncaught := [], rejection := [] }

/-- ... then restore immediately. -/
def c1AfterRestore : IQInst × Console × Hooks :=
  restoreIQ c1AfterInit.1 c1AfterInit.2.1 c1AfterInit.2.2

/-- ConsoleText instance A initialized over the pristine console. -/
def ctConsoleA : Console := initCT (mkCT 0 pristineConsole) pristineConsole

/-- A second ConsoleText instance constructed while A's wrappers are
installed (its snapshot records A's wrappers as "original"). -/
def ctInstB : CTInst := mkCT 1 ctConsoleA

/-- ... and initialized: B's wrappers now occupy the entry points. -/
def ctConsoleB : Console := initCT ctInstB ctConsoleA

/-- Instance A then restores while B's wrappers are installed. -/
def ctConsoleARestored : Console := restoreCT (mkCT 0 pristineConsole) ctConsoleB

/-- A console state where another instance's function (token `foreignFn 7`)
occupies the `log` slot while the C1-scenario instance restores. -/
def foreignConsole : Console := fun s =>
  if s = Slot.log then FnId.foreignFn 7 else c1AfterInit.2.1 s

/-- A self-referential object, as built by
`const o = (empty object); o.self = o`: the canonical cyclic input. -/
def cyclicSelf : Heap := [HObj.obj [("self", JSVal.ref 0)] true]

/-- A shared (acyclic) reference under the depth limit: reference 1 occurs
under both keys of reference 0, and reference 2 nests beyond depth 1. -/
def sharedRef : Heap :=
  [HObj.obj [("a", JSVal.ref 1), ("b", JSVal.ref 1)] true,
   HObj.obj [("c", JSVal.ref 2)] true,
   HObj.obj [("e", JSVal.vnum 1)] true]

/-! ## Tree-shaped data and the depth-budget specification (claim C6)

`TVal` is an inductive tree of JS data (no sharing, no cycles);
`encodeAt t base` lays it out as a heap segment whose references are
absolute from `base`, and `serialSpec` is the claim's expected output,
written from the spec's words — full structure at or under the budget, the
fixed placeholder beyond it — to be compared with the serializer. -/

/-- A tree-shaped JS value: primitives, arrays, plain objects, Errors. -/
inductive TVal where
  | vundef : TVal
  | vnull : TVal
  | vbool : Bool → TVal
  | vnum : Int → TVal
  | vstr : String → TVal
  | vfunc : Nat → TVal
  | arr : List TVal → TVal
  | obj : List (String × TVal) → TVal
  | err : String → String → String → List (String × TVal) → TVal

mutual

/-- Following the words of the claim and spec section 4.3 (the reference
output `_prepareForSerialization` is compared against): a node deeper than
the budget renders as the fixed `[Max Depth Reached]` placeholder and the
branch is cut; a node at or under the budget keeps its full structure —
primitives pass through, arrays map element-wise, objects key-wise, Errors
become the tagged record plus their custom properties — with children one
level deeper. -/
def serialSpec (maxD depth : Nat) : TVal → SVal
  | TVal.vundef =>
      if maxD < depth then SVal.vstr "[Max Depth Reached]" else SVal.vundef
  | TVal.vnull =>
      if maxD < depth then SVal.vstr "[Max Depth Reached]" else SVal.vnull
  | TVal.vbool b =>
      if maxD < depth then SVal.vstr "[Max Depth Reached]" else SVal.vbool b
  | TVal.vnum n =>
      if maxD < depth then SVal.vstr "[Max Depth Reached]" else SVal.vnum n
  | TVal.vstr s =>
      if maxD < depth then SVal.vstr "[Max Depth Reached]" else SVal.vstr s
  | TVal.vfunc f =>
      if maxD < depth then SVal.vstr "[Max Depth Reached]" else SVal.vfunc f
  | TVal.arr ts =>
      if maxD < depth then SVal.vstr "[Max Depth Reached]"
      else SVal.arr (serialSpecList maxD (depth + 1) ts)
  | TVal.obj fs =>
      if maxD < depth then SVal.vstr "[Max Depth Reached]"
      else SVal.obj (serialSpecFields maxD (depth + 1) fs)
  | TVal.err n m s fs =>
      if maxD < depth then SVal.vstr "[Max Depth Reached]"
      else
        SVal.obj ([("__type", SVal.vstr "Error"), ("name", SVal.vstr n),
          ("message", SVal.vstr m), ("stack", SVal.vstr s)] ++
          serialSpecFields maxD (depth + 1) fs)
termination_by t => sizeOf t

/-- Element-wise expected output. -/
def serialSpecList (maxD depth : Nat) : List TVal → List SVal
  | [] => []
  | t :: ts => serialSpec maxD depth t :: serialSpecList maxD depth ts
termination_by ts => sizeOf ts

/-- Key-wise expected output. -/
def serialSpecFields (maxD depth : Nat) :
    List (String × TVal) → List (String × SVal)
  | [] => []
  | (k, t) :: fs => (k, serialSpec maxD depth t) :: serialSpecFields maxD depth fs
termination_by fs => sizeOf fs

end

mutual

/-- Lay a tree out as a heap segment: children first, the node's object
last, every reference absolute from `base` (so the segment is position-
independent data to be appended at index `base` of some heap). -/
def encodeAt : TVal → Nat → JSVal × List HObj
  | TVal.vundef, _ => (JSVal.vundef, [])
  | TVal.vnull, _ => (JSVal.vnull, [])
  | TVal.vbool b, _ => (JSVal.vbool b, [])
  | TVal.vnum n, _ => (JSVal.vnum n, [])
  | TVal.vstr s, _ => (JSVal.vstr s, [])
  | TVal.vfunc f, _ => (JSVal.vfunc f, [])
  | TVal.arr ts, base =>
      let p := encodeAtList ts base
      (JSVal.ref (base + p.2.length), p.2 ++ [HObj.arr p.1])
  | TVal.obj fs, base =>
      let p := encodeAtFields fs base
      (JSVal.ref (base + p.2.length), p.2 ++ [HObj.obj p.1 true])
  | TVal.err n m s fs, base =>
      let p := encodeAtFields fs base
      (JSVal.ref (base + p.2.length), p.2 ++ [HObj.err n m (JSVal.vstr s) p.1])
termination_by t _ => sizeOf t

/-- Encode list elements into consecutive sub-segments. -/
def encodeAtList : List TVal → Nat → List JSVal × List HObj
  | [], _ => ([], [])
  | t :: ts, base =>
      let p := encodeAt t base
      let q := encodeAtList ts (base + p.2.length)
      (p.1 :: q.1, p.2 ++ q.2)
termination_by ts _ => sizeOf ts

/-- Encode field values into consecutive sub-segments. -/
def encodeAtFields : List (String × TVal) → Nat → List (String × JSVal) × List HObj
  | [], _ => ([], [])
  | (k, t) :: fs, base =>
      let p := encodeAt t base
      let q := encodeAtFields fs (base + p.2.length)
      ((k, p.1) :: q.1, p.2 ++ q.2)
termination_by fs _ => sizeOf fs

end

/-- `H` holds the segment `seg` starting at index `base`. -/
def hasSeg (H : Heap) (base : Nat) (seg : List HObj) : Prop :=
  ∀ i, i < seg.length → H[base + i]? = seg[i]?

/-! ## Theorems -/

/-- If the element serializer always succeeds at this depth, the array
traversal succeeds. -/
theorem serListWith_isSome (ser : Nat → JSVal → List Nat → Option (SVal × List Nat))
    (depth : Nat) (hser : ∀ v seen, (ser depth v seen).isSome = true) :
    ∀ (vs : List JSVal) (seen : List Nat),
      (serListWith ser depth vs seen).isSome = true := by
  intro vs
  induction vs with
  | nil => intro seen; rfl
  | cons v vs ih =>
    intro seen
    rcases Option.isSome_iff_exists.mp (hser v seen) with ⟨⟨s, seen'⟩, hv⟩
    rcases Option.isSome_iff_exists.mp (ih seen') with ⟨⟨ss, seen''⟩, hrest⟩
    simp [serListWith, hv, hrest]

/-- If the value serializer always succeeds at this depth, the field
traversal succeeds. -/
theorem serFieldsWith_isSome (ser : Nat → JSVal → List Nat → Option (SVal × List Nat))
    (depth : Nat) (hser : ∀ v seen, (ser depth v seen).isSome = true) :
    ∀ (fs : List (String × JSVal)) (seen : List Nat),
      (serFieldsWith ser depth fs seen).isSome = true := by
  intro fs
  induction fs with
  | nil => intro seen; rfl
  | cons kv fs ih =>
    intro seen
    obtain ⟨k, v⟩ := kv
    rcases Option.isSome_iff_exists.mp (hser v seen) with ⟨⟨s, seen'⟩, hv⟩
    rcases Option.isSome_iff_exists.mp (ih seen') with ⟨⟨ss, seen''⟩, hrest⟩
    simp [serFieldsWith, hv, hrest]

/-- Fuel sufficiency for the part_002 serializer: the depth guard bounds the
recursion, so fuel `maxD + 2 - depth` (hence `maxD + 2` at the top level)
never runs out, on any heap — cyclic graphs included. -/
theorem prepFuel_isSome (h : Heap) (maxD : Nat) :
    ∀ (fuel depth : Nat) (v : JSVal) (seen : List Nat),
      1 ≤ fuel → maxD + 2 ≤ fuel + depth →
      (prepFuel h maxD fuel depth v seen).isSome = true := by
  intro fuel
  induction fuel with
  | zero => intro depth v seen h1 _; exact absurd h1 (by omega)
  | succ f ih =>
    intro depth v seen _ hcond
    by_cases hd : maxD < depth
    · simp [prepFuel, hd]
    · have hrec : ∀ (v' : JSVal) (seen' : List Nat),
          (prepFuel h maxD f (depth + 1) v' seen').isSome = true := by
        intro v' seen'
        exact ih (depth + 1) v' seen' (by omega) (by omega)
      cases v with
      | ref r =>
        by_cases hr : r ∈ seen
        · simp [prepFuel, hd, hr]
        · cases hget : h[r]? with
          | none => simp [prepFuel, hd, hr, hget]
          | some o =>
            cases o with
            | err n m s extra =>
              rcases Option.isSome_iff_exists.mp
                (serFieldsWith_isSome (prepFuel h maxD f) (depth + 1) hrec
                  extra (r :: seen)) with ⟨⟨fs, seen'⟩, hfs⟩
              simp [prepFuel, hd, hr, hget, hfs]
            | arr es =>
              rcases Option.isSome_iff_exists.mp
                (serListWith_isSome (prepFuel h maxD f) (depth + 1) hrec
                  es (r :: seen)) with ⟨⟨ss, seen'⟩, hss⟩
              simp [prepFuel, hd, hr, hget, hss]
            | obj fields strOk =>
              rcases Option.isSome_iff_exists.mp
                (serFieldsWith_isSome (prepFuel h maxD f) (depth + 1) hrec
                  fields (r :: seen)) with ⟨⟨fs, seen'⟩, hfs⟩
              simp [prepFuel, hd, hr, hget, hfs]
      | vundef => simp [prepFuel, hd]
      | vnull => simp [prepFuel, hd]
      | vbool b => simp [prepFuel, hd]
      | vnum n => simp [prepFuel, hd]
      | vstr s => simp [prepFuel, hd]
      | vfunc f' => simp [prepFuel, hd]

/-- Fuel sufficiency for the part_001 inner serializer: same depth-guard
argument as for the revised serializer. -/
theorem serializeInnerFuel_isSome (h : Heap) (maxD : Nat) :
    ∀ (fuel depth : Nat) (v : JSVal) (seen : List Nat),
      1 ≤ fuel → maxD + 2 ≤ fuel + depth →
      (serializeInnerFuel h maxD fuel depth v seen).isSome = true := by
  intro fuel
  induction fuel with
  | zero => intro depth v seen h1 _; exact absurd h1 (by omega)
  | succ f ih =>
    intro depth v seen _ hcond
    by_cases hd : maxD < depth
    · simp [serializeInnerFuel, hd]
    · have hrec : ∀ (v' : JSVal) (seen' : List Nat),
          (serializeInnerFuel h maxD f (depth + 1) v' seen').isSome = true := by
        intro v' seen'
        exact ih (depth + 1) v' seen' (by omega) (by omega)
      cases v with
      | ref r =>
        by_cases hr : r ∈ seen
        · simp [serializeInnerFuel, hd, hr]
        · cases hget : h[r]? with
          | none => simp [serializeInnerFuel, hd, hr, hget]
          | some o =>
            cases o with
            | err n m s extra =>
              rcases Option.isSome_iff_exists.mp
                (serFieldsWith_isSome (serializeInnerFuel h maxD f) (depth + 1) hrec
                  extra (r :: seen)) with ⟨⟨fs, seen'⟩, hfs⟩
              simp [serializeInnerFuel, hd, hr, hget, hfs]
            | arr es =>
              rcases Option.isSome_iff_exists.mp
                (serListWith_isSome (serializeInnerFuel h maxD f) (depth + 1) hrec
                  es (r :: seen)) with ⟨⟨ss, seen'⟩, hss⟩
              simp [serializeInnerFuel, hd, hr, hget, hss]
            | obj fields strOk =>
              rcases Option.isSome_iff_exists.mp
                (serFieldsWith_isSome (serializeInnerFuel h maxD f) (depth + 1) hrec
                  fields (r :: seen)) with ⟨⟨fs, seen'⟩, hfs⟩
              simp [serializeInnerFuel, hd, hr, hget, hfs]
      | vundef => simp [serializeInnerFuel, hd]
      | vnull => simp [serializeInnerFuel, hd]
      | vbool b => simp [serializeInnerFuel, hd]
      | vnum n => simp [serializeInnerFuel, hd]
      | vstr s => simp [serializeInnerFuel, hd]
      | vfunc f' => simp [serializeInnerFuel, hd]

/-- Claim C5: on every input value — cyclic object graphs included — both
payload serializers (`_prepareForSerialization` of part_002 and the inner
`serialize` of part_001 `_serializeObject`) terminate: the depth guard
bounds the recursion, so the fuelled embeddings never exhaust fuel
`maxD + 2 - depth`.  Moreover a reference already present in the visited
set renders as the fixed `[Circular Reference]` placeholder instead of
being recursed into, and concretely the self-referential object serializes
with its cyclic slot as the placeholder in both revisions. -/
theorem serializer_terminates_and_marks_circular :
    (∀ (h : Heap) (maxD fuel depth : Nat) (v : JSVal) (seen : List Nat),
        1 ≤ fuel → maxD + 2 ≤ fuel + depth →
        (prepFuel h maxD fuel depth v seen).isSome = true ∧
        (serializeInnerFuel h maxD fuel depth v seen).isSome = true) ∧
    (∀ (h : Heap) (maxD fuel depth r : Nat) (seen : List Nat),
        r ∈ seen → depth ≤ maxD →
        prepFuel h maxD (fuel + 1) depth (JSVal.ref r) seen =
          some (SVal.vstr "[Circular Reference]", seen) ∧
        serializeInnerFuel h maxD (fuel + 1) depth (JSVal.ref r) seen =
          some (SVal.vstr "[Circular Reference]", seen)) ∧
    prepare cyclicSelf 5 (JSVal.ref 0) =
      SVal.obj [("self", SVal.vstr "[Circular Reference]")] ∧
    serializeObject cyclicSelf 5 (JSVal.ref 0) 0 =
      SVal.obj [("self", SVal.vstr "[Circular Reference]")] := by
  refine ⟨?_, ?_, by rfl, by rfl⟩
  · intro h maxD fuel depth v seen h1 h2
    exact ⟨prepFuel_isSome h maxD fuel depth v seen h1 h2,
      serializeInnerFuel_isSome h maxD fuel depth v seen h1 h2⟩
  · intro h maxD fuel depth r seen hmem hdepth
    constructor
    · simp [prepFuel, Nat.not_lt.mpr hdepth, hmem]
    · simp [serializeInnerFuel, Nat.not_lt.mpr hdepth, hmem]

/-- Witness for C5: the universally quantified parts applied at the cyclic
heap with concrete fuel and depth. -/
theorem serializer_terminates_and_marks_circular_witness :
    (prepFuel cyclicSelf 5 7 0 (JSVal.ref 0) []).isSome = true ∧
    serializeInnerFuel cyclicSelf 5 7 1 (JSVal.ref 0) [0] =
      some (SVal.vstr "[Circular Reference]", [0]) :=
  ⟨(serializer_terminates_and_marks_circular.1 cyclicSelf 5 7 0 (JSVal.ref 0) []
      (by decide) (by decide)).1,
   (serializer_terminates_and_marks_circular.2.1 cyclicSelf 5 6 1 0 [0]
      (by decide) (by decide)).2⟩

/-- Local output never throws for the level names the wrappers route:
the snapshot table has a function under each of these keys. -/
theorem applyColorAndLog_sync_ok (c : Bool) (level : String) (args : List JSVal)
    (hl : level ∈ ["log", "info", "warn", "error", "debug", "trace", "text"]) :
    (applyColorAndLog c level args).2 = Except.ok () := by
  fin_cases hl <;> rfl

/-- Every `Error` in the heap carries a benign stack — the class of heaps
on which `_enhanceError` cannot reach `_cleanStack`'s TypeError. -/
def benignErrStacks (h : Heap) : Bool :=
  h.all (fun o => match o with
    | HObj.err _ _ sv _ => benignStack sv
    | _ => true)

/-- A heap-wide benign-stacks bound applies to each Error looked up. -/
theorem benignErrStacks_lookup (h : Heap) (r : Nat) (n m : String)
    (sv : JSVal) (ex : List (String × JSVal))
    (hb : benignErrStacks h = true)
    (hget : h[r]? = some (HObj.err n m sv ex)) : benignStack sv = true := by
  have hmem : HObj.err n m sv ex ∈ h := List.getElem?_mem hget
  exact List.all_eq_true.mp hb _ hmem

/-- `_cleanStack` succeeds on every benign stack value. -/
theorem cleanStack_ok (sv : JSVal) (hb : benignStack sv = true) :
    ∃ out, cleanStack sv = Except.ok out := by
  cases sv with
  | vstr s =>
      by_cases ht : jsTruthy (JSVal.vstr s) = true
      · refine ⟨JSVal.vstr (String.intercalate "\n"
          ((s.splitOn "\n").filter (fun l => (l.splitOn "ConsoleIQ.").length == 1))), ?_⟩
        simp [cleanStack, ht]
      · refine ⟨JSVal.vstr "", ?_⟩
        simp [cleanStack, ht]
  | vundef => exact ⟨JSVal.vstr "", rfl⟩
  | vnull => exact ⟨JSVal.vstr "", rfl⟩
  | vbool b =>
      cases b with
      | false => exact ⟨JSVal.vstr "", rfl⟩
      | true => simp [benignStack, jsTruthy] at hb
  | vnum n =>
      by_cases hn : (n != 0) = true
      · simp [benignStack, jsTruthy, hn] at hb
      · refine ⟨JSVal.vstr "", ?_⟩
        simp [cleanStack, jsTruthy, hn]
  | vfunc f => simp [benignStack, jsTruthy] at hb
  | ref r => simp [benignStack, jsTruthy] at hb

/-- `_enhanceError` cannot throw on an `Error` argument drawn from a
benign-stacks heap, and the two plain objects it appends preserve the
bound. -/
theorem enhanceError_ok (cfg : Config) (host : Host) (h : Heap) (v : JSVal)
    (source : String) (hb : benignErrStacks h = true)
    (hv : isErrRef h v = true) :
    ∃ p, enhanceError cfg host h v source = Except.ok p ∧
      benignErrStacks p.1 = true := by
  cases v with
  | ref r =>
      cases hget : h[r]? with
      | none => simp [isErrRef, hget] at hv
      | some o =>
        cases o with
        | arr es => simp [isErrRef, hget] at hv
        | obj fields strOk => simp [isErrRef, hget] at hv
        | err n m sv ex =>
          have hsv : benignStack sv = true :=
            benignErrStacks_lookup h r n m sv ex hb hget
          by_cases he : cfg.enhanceErrors = true
          · have hst1 : benignStack
                (if jsTruthy sv = true then sv
                 else JSVal.vstr host.freshStack) = true := by
              by_cases ht : jsTruthy sv = true
              · rw [if_pos ht]
                exact hsv
              · rw [if_neg ht]
                rfl
            have hcs : ∃ outF,
                (if cfg.autoTraceErrors = true
                 then cleanStack (if jsTruthy sv = true then sv
                   else JSVal.vstr host.freshStack)
                 else Except.ok (if jsTruthy sv = true then sv
                   else JSVal.vstr host.freshStack)) = Except.ok outF := by
              by_cases hat : cfg.autoTraceErrors = true
              · rw [if_pos hat]
                exact cleanStack_ok _ hst1
              · rw [if_neg hat]
                exact ⟨_, rfl⟩
            rcases hcs with ⟨outF, houtF⟩
            have hgrow : ∀ (o1 o2 : List (String × JSVal)),
                benignErrStacks ((h ++ [HObj.obj o1 true]) ++ [HObj.obj o2 true]) = true := by
              intro o1 o2
              simp [benignErrStacks, List.all_append, List.all_cons, List.all_nil] at hb ⊢
              exact hb
            refine ⟨((h ++ [HObj.obj
                [("version", JSVal.vstr host.nodeVersion), ("pid", JSVal.vnum host.pid),
                 ("cwd", JSVal.vstr host.cwd), ("argv", JSVal.vstr host.argv)] true]) ++
              [HObj.obj (ex ++
                [("source", JSVal.vstr source), ("timestamp", JSVal.vstr host.now),
                 ("loggerName", JSVal.vstr cfg.name),
                 ("environment", JSVal.vstr cfg.environment),
                 ("stack", outF), ("node", JSVal.ref h.length)]) true],
              JSVal.ref (h ++ [HObj.obj
                [("version", JSVal.vstr host.nodeVersion), ("pid", JSVal.vnum host.pid),
                 ("cwd", JSVal.vstr host.cwd), ("argv", JSVal.vstr host.argv)] true]).length),
              ?_, hgrow _ _⟩
            simp [enhanceError, he, hget, houtF]
          · exact ⟨(h, JSVal.ref r), by simp [enhanceError, he], hb⟩
  | vundef => simp [isErrRef] at hv
  | vnull => simp [isErrRef] at hv
  | vbool b => simp [isErrRef] at hv
  | vnum n => simp [isErrRef] at hv
  | vstr s => simp [isErrRef] at hv
  | vfunc f => simp [isErrRef] at hv

/-- The enhancement map cannot throw over a benign-stacks heap, and its
result heap stays benign (it appends only plain objects). -/
theorem enhanceArgs_ok (cfg : Config) (host : Host) (source : String) :
    ∀ (args : List JSVal) (h : Heap), benignErrStacks h = true →
      ∃ p, enhanceArgs cfg host source h args = Except.ok p ∧
        benignErrStacks p.1 = true := by
  intro args
  induction args with
  | nil => intro h hb; exact ⟨(h, []), rfl, hb⟩
  | cons a as ih =>
    intro h hb
    by_cases ha : isErrRef h a = true
    · rcases enhanceError_ok cfg host h a source hb ha with ⟨p, hp, hpb⟩
      rcases ih p.1 hpb with ⟨q, hq, hqb⟩
      exact ⟨(q.1, p.2 :: q.2), by simp [enhanceArgs, ha, hp, hq], hqb⟩
    · rcases ih h hb with ⟨q, hq, hqb⟩
      exact ⟨(q.1, a :: q.2), by simp [enhanceArgs, ha, hq], hqb⟩

/-- The shipping guard resolves whenever `.includes` on this instance's
`allowedLevels` does. -/
theorem sendDecision_ok (endpoint : String) (levels : LevelsVal)
    (level : String) (b : Bool)
    (hlv : levelsIncludes levels level = Except.ok b) :
    sendDecision endpoint levels level =
      Except.ok (if endpoint = "" then false else b) := by
  unfold sendDecision
  by_cases hep : endpoint = "" <;> simp [hep, hlv]

/-- The level wrapper's synchronous outcome is success whenever the
configuration's `allowedLevels` answers `.includes` and every heap Error
has a benign stack: all other throwing operations sit inside the shipper's
try, and local output resolves known level names. -/
theorem handleLogIQ_sync_ok (rev : Rev) (cfg : Config) (host : Host)
    (h : Heap) (level : String) (args : List JSVal) (net : Except JSErr Unit)
    (b : Bool) (hl : level ∈ ["log", "info", "warn", "error", "debug"])
    (hlv : levelsIncludes cfg.allowedLevels level = Except.ok b)
    (hb : benignErrStacks h = true) :
    (handleLogIQ rev cfg host h level args net).2 = Except.ok () := by
  have h7 : level ∈ ["log", "info", "warn", "error", "debug", "trace", "text"] := by
    fin_cases hl <;> simp
  rcases enhanceArgs_ok cfg host ("console." ++ level) args h hb with ⟨p, hp, _⟩
  have hsd := sendDecision_ok cfg.endpoint cfg.allowedLevels level b hlv
  have htail : (autoTraceTail cfg host p.1 p.2).2 = Except.ok () := by
    unfold autoTraceTail
    have htr : ∀ (xs : List JSVal),
        (applyColorAndLog cfg.colorize "trace" xs).2 = Except.ok () :=
      fun xs => applyColorAndLog_sync_ok cfg.colorize "trace" xs (by simp)
    split
    · split
      · exact htr _
      · split
        · exact htr _
        · rfl
    · split
      · exact htr _
      · rfl
  have hok := applyColorAndLog_sync_ok cfg.colorize level p.2 h7
  by_cases hs : cfg.silent = true
  · simp [handleLogIQ, hp, hsd, hs]
  · by_cases he : level = "error" ∧ cfg.autoTraceErrors = true
    · obtain ⟨he1, he2⟩ := he
      subst he1
      have hca : ("console." ++ "error" : String) = "console.error" := rfl
      rw [hca] at hp
      simp [handleLogIQ, hp, hsd, hs, hok, he2, htail]
    · simp [handleLogIQ, hp, hsd, hs, hok, he]

/-- The capture wrapper's inner `_handleConsoleError` resolves (guard and
second enhancement map included) under the same conditions. -/
theorem handleConsoleErrorIQ_ok (rev : Rev) (cfg : Config) (host : Host)
    (h : Heap) (args : List JSVal) (net : Except JSErr Unit) (b : Bool)
    (hlv : levelsIncludes cfg.allowedLevels "error" = Except.ok b)
    (hb : benignErrStacks h = true) :
    ∃ es, handleConsoleErrorIQ rev cfg host h args net =
      (es, Except.ok ()) := by
  have hsd := sendDecision_ok cfg.endpoint cfg.allowedLevels "error" b hlv
  rcases enhanceArgs_ok cfg host "console.error" args h hb with ⟨p, hp, _⟩
  unfold handleConsoleErrorIQ
  rw [hsd]
  by_cases hds : (if cfg.endpoint = "" then false else b) = true
  · refine ⟨sendToServerIQ rev cfg "error" p.2 p.1 net, ?_⟩
    simp [hds, hp]
  · exact ⟨[], by simp [hds]⟩

/-- Counterexample to C2 as stated: two inputs inside the claim's
quantification make an intercepted logging entry point throw a TypeError
into the calling code.  (1) Under the DEFAULT configuration
(`enhanceErrors` and `autoTraceErrors` on), an `Error` argument whose
`stack` property holds the truthy non-string `42` reaches
`_cleanStack(stack)`, where `stack.split` is not a function — and no
try/catch stands between `_enhanceError` and the caller, on the bare level
wrapper and the console-error capture wrapper alike.  (2) The truthy
non-array `allowedLevels: 1` survives the constructor's `||` defaulting
untouched, and the first leveled call throws from
`this.config.allowedLevels.includes(level)` in `_handleLog`. -/
theorem logging_entry_point_throws_counterexample :
    (mkConfig {} "node").enhanceErrors = true ∧
    (mkConfig {} "node").autoTraceErrors = true ∧
    (handleLogIQ Rev.v1 (mkConfig {} "node") defaultHost
        [HObj.err "Error" "boom" (JSVal.vnum 42) []] "error" [JSVal.ref 0]
        (Except.ok ())).2 = Except.error "stack.split is not a function" ∧
    (consoleErrorEntryIQ Rev.v2 (mkConfig {} "node") defaultHost
        [HObj.err "Error" "boom" (JSVal.vnum 42) []] [JSVal.ref 0]
        (Except.ok ()) (Except.ok ())).2 =
      Except.error "stack.split is not a function" ∧
    (mkConfig { allowedLevels := LevelsVal.num 1 } "node").allowedLevels =
      LevelsVal.num 1 ∧
    (handleLogIQ Rev.v1 (mkConfig { allowedLevels := LevelsVal.num 1 } "node")
        defaultHost [] "log" [JSVal.vstr "x"] (Except.ok ())).2 =
      Except.error "this.config.allowedLevels.includes is not a function" := by
  exact ⟨rfl, rfl, rfl, rfl, rfl, rfl⟩

/-- Claim C2 (amended): no intercepted logging entry point — the leveled
wrappers, the pass-through diagnostic wrappers, the `text` wrapper, and
the console-error capture wrapper, in both ConsoleIQ revisions and in
ConsoleText — throws into the calling code, for any heap (cyclic and
non-coercible arguments included) and any transport outcome, PROVIDED
every `Error` argument's `stack` is a string or falsy and the
configuration's `allowedLevels` answers `.includes` (an actual array, or a
string, as after any default resolution).  Outside that proviso two throw
paths escape (see the counterexample): `_cleanStack`'s `stack.split` on a
truthy non-string stack, and `.includes` on a truthy non-array
`allowedLevels`.  Serialization and transport failures are still caught
inside the shippers (or surface only as a detached-promise rejection in
ConsoleText); within the proviso the synchronous outcome is always
success. -/
theorem entry_points_no_throw_on_benign_inputs (rev : Rev) (cfg : Config)
    (cfgCT : ConfigCT) (host : Host) (h : Heap) (level : String)
    (args : List JSVal) (net net' : Except JSErr Unit) (s : Slot)
    (b1 b2 b3 q1 q2 : Bool)
    (hl : level ∈ ["log", "info", "warn", "error", "debug"])
    (hb : benignErrStacks h = true)
    (hlv1 : levelsIncludes cfg.allowedLevels level = Except.ok b1)
    (hlv2 : levelsIncludes cfg.allowedLevels "text" = Except.ok b2)
    (hlv3 : levelsIncludes cfg.allowedLevels "error" = Except.ok b3)
    (hlvc1 : levelsIncludes cfgCT.allowedLevels level = Except.ok q1)
    (hlvc2 : levelsIncludes cfgCT.allowedLevels "text" = Except.ok q2) :
    (handleLogIQ rev cfg host h level args net).2 = Except.ok () ∧
    (textEntryIQ rev cfg h args net).2 = Except.ok () ∧
    (otherEntryIQ cfg s args).2 = Except.ok () ∧
    (consoleErrorEntryIQ rev cfg host h args net net').2 = Except.ok () ∧
    (handleLogCT cfgCT h level args net).2 = Except.ok () ∧
    (textEntryCT cfgCT h args net).2 = Except.ok () ∧
    (otherEntryCT cfgCT s args).2 = Except.ok () := by
  refine ⟨handleLogIQ_sync_ok rev cfg host h level args net b1 hl hlv1 hb,
    ?_, ?_, ?_, ?_, ?_, ?_⟩
  · have hsd := sendDecision_ok cfg.endpoint cfg.allowedLevels "text" b2 hlv2
    have hok := applyColorAndLog_sync_ok cfg.colorize "text" args (by simp)
    by_cases hs : cfg.silent = true
    · simp [textEntryIQ, hsd, hs]
    · simp [textEntryIQ, hsd, hs, hok]
  · unfold otherEntryIQ
    split <;> rfl
  · rcases enhanceArgs_ok cfg host "console.error" args h hb with ⟨p, hp, hpb⟩
    rcases handleConsoleErrorIQ_ok rev cfg host p.1 p.2 net b3 hlv3 hpb
      with ⟨es, hcc⟩
    have hq := handleLogIQ_sync_ok rev cfg host p.1 "error" args net' b3
      (by simp) hlv3 hpb
    simp [consoleErrorEntryIQ, hp, hcc, hq]
  · have hsd := sendDecision_ok cfgCT.endpoint cfgCT.allowedLevels level q1 hlvc1
    have h7 : level ∈ ["log", "info", "warn", "error", "debug", "trace", "text"] := by
      fin_cases hl <;> simp
    have hok := applyColorAndLog_sync_ok cfgCT.colorize level args h7
    by_cases hs : cfgCT.silent = true
    · simp [handleLogCT, hsd, hs]
    · simp [handleLogCT, hsd, hs, hok]
  · have hsd := sendDecision_ok cfgCT.endpoint cfgCT.allowedLevels "text" q2 hlvc2
    have hok := applyColorAndLog_sync_ok cfgCT.colorize "text" args (by simp)
    by_cases hs : cfgCT.silent = true
    · simp [textEntryCT, hsd, hs]
    · simp [textEntryCT, hsd, hs, hok]
  · unfold otherEntryCT
    split <;> rfl

/-- Witness for amended C2: the default-configured engines (array
`allowedLevels`, so `.includes` resolves), a cyclic non-coercible argument
on an error-free heap, a failing transport. -/
theorem entry_points_no_throw_witness :
    (handleLogIQ Rev.v2 (mkConfig {} "node") defaultHost
        [HObj.obj [("self", JSVal.ref 0)] false] "error" [JSVal.ref 0]
        (Except.error "Network Error")).2 = Except.ok () ∧
    (handleLogCT (mkConfigCT {}) cyclicSelf "error" [JSVal.ref 0]
        (Except.error "Network Error")).2 = Except.ok () :=
  ⟨(entry_points_no_throw_on_benign_inputs Rev.v2 (mkConfig {} "node")
      (mkConfigCT {}) defaultHost [HObj.obj [("self", JSVal.ref 0)] false]
      "error" [JSVal.ref 0] (Except.error "Network Error") (Except.ok ())
      Slot.dir true true true false true (by simp) (by decide)
      (by rfl) (by rfl) (by rfl) (by rfl) (by rfl)).1,
   ((entry_points_no_throw_on_benign_inputs Rev.v2 (mkConfig {} "node")
      (mkConfigCT {}) defaultHost cyclicSelf "error" [JSVal.ref 0]
      (Except.error "Network Error") (Except.ok ()) Slot.dir
      true true true false true (by simp) (by decide)
      (by rfl) (by rfl) (by rfl) (by rfl) (by rfl)).2.2.2.2).1⟩

/-- Claim C3 (the code contradicts its own test suite): a configuration
constructed WITHOUT an endpoint option still ships — the constructor
defaults `endpoint` to the hard-coded production URL, so a default-config
`console.error` call attempts a POST there.
`__tests__/ConsoleIQ.test.js` ("should create instance with default
config") expects `endpoint: null` for exactly this input, and CT's test
suite likewise; the earlier CT revision (`src/unnamed/part_005`) indeed
used `config.endpoint || null`. -/
theorem absent_endpoint_still_ships :
    (mkConfig {} "node").endpoint = "https://api.consoleiq.io/logs" ∧
    (mkConfigCT {}).endpoint = "https://api.consoletext.xyz/logs" ∧
    (handleLogIQ Rev.v1 (mkConfig {} "node") defaultHost [] "error"
        [JSVal.vstr "x"] (Except.ok ())).1 =
      [Event.post "https://api.consoleiq.io/logs" "error" [SVal.vstr "x"],
       Event.out Slot.error [JSVal.vstr "x"]] ∧
    postCount (handleLogIQ Rev.v1 (mkConfig {} "node") defaultHost [] "error"
        [JSVal.vstr "x"] (Except.ok ())).1 = 1 := by
  refine ⟨rfl, rfl, rfl, rfl⟩

/-- The ConsoleIQ shippers never emit a trace-slot call: their only local
output is the failure report on the error slot. -/
theorem traceOuts_sendToServerIQ (rev : Rev) (cfg : Config) (level : String)
    (args : List JSVal) (h : Heap) (net : Except JSErr Unit) :
    traceOuts (sendToServerIQ rev cfg level args h net) = [] := by
  cases rev
  · by_cases hep : cfg.endpoint = ""
    · simp [sendToServerIQ, sendToServerIQ1, hep, traceOuts]
    · cases net with
      | ok u => simp [sendToServerIQ, sendToServerIQ1, hep, traceOuts, List.filter]
      | error e =>
          by_cases hs : cfg.silent = true
          · simp [sendToServerIQ, sendToServerIQ1, hep, hs, traceOuts, List.filter]
          · simp [sendToServerIQ, sendToServerIQ1, hep, hs, traceOuts,
              failureReport, List.filter]
  · by_cases hep : cfg.endpoint = ""
    · simp [sendToServerIQ, sendToServerIQ2, hep, traceOuts]
    · cases hfmt : formatConsoleLike h args with
      | error e =>
          by_cases hs : cfg.silent = true
          · simp [sendToServerIQ, sendToServerIQ2, hep, hs, hfmt, traceOuts, List.filter]
          · simp [sendToServerIQ, sendToServerIQ2, hep, hs, hfmt, traceOuts,
              failureReport, List.filter]
      | ok m =>
          cases net with
          | ok u => simp [sendToServerIQ, sendToServerIQ2, hep, hfmt, traceOuts, List.filter]
          | error e =>
              by_cases hs : cfg.silent = true
              · simp [sendToServerIQ, sendToServerIQ2, hep, hs, hfmt, traceOuts, List.filter]
              · simp [sendToServerIQ, sendToServerIQ2, hep, hs, hfmt, traceOuts,
                  failureReport, List.filter]

/-- With enhancement disabled `_enhanceError` is the identity, so the
argument map changes nothing. -/
theorem enhanceArgs_id (cfg : Config) (host : Host) (source : String)
    (henh : cfg.enhanceErrors = false) :
    ∀ (h : Heap) (args : List JSVal),
      enhanceArgs cfg host source h args = Except.ok (h, args) := by
  intro h args
  induction args generalizing h with
  | nil => rfl
  | cons a as ih =>
    unfold enhanceArgs
    have hid : (if isErrRef h a then enhanceError cfg host h a source
        else Except.ok (h, a)) = Except.ok (h, a) := by
      split
      · unfold enhanceError
        simp [henh]
      · rfl
    rw [hid]
    simp [ih]

/-- `traceOuts` distributes over concatenation. -/
theorem traceOuts_append (a b : List Event) :
    traceOuts (a ++ b) = traceOuts a ++ traceOuts b := by
  simp [traceOuts, List.filter_append]

/-- `traceOuts` commutes with a conditional. -/
theorem traceOuts_ite (c : Prop) [Decidable c] (a b : List Event) :
    traceOuts (if c then a else b) =
      if c then traceOuts a else traceOuts b := by
  split <;> rfl

/-- No trace output in an empty trace. -/
theorem traceOuts_nil : traceOuts [] = [] := rfl

/-- An error-slot call is not a trace output. -/
theorem traceOuts_cons_error (xs : List JSVal) (rest : List Event) :
    traceOuts (Event.out Slot.error xs :: rest) = traceOuts rest := by
  simp [traceOuts, List.filter]

/-- A trace-slot call is a trace output. -/
theorem traceOuts_cons_trace (xs : List JSVal) (rest : List Event) :
    traceOuts (Event.out Slot.trace xs :: rest) =
      Event.out Slot.trace xs :: traceOuts rest := by
  simp [traceOuts, List.filter]

/-- Counterexample to C7 as stated: at a silent configuration with an
endpoint and an allowed level, a transport failure produces ZERO messages
on the original error entry point — the richer variant's catch guards the
report with `if (!this.config.silent)` — where the claim demands exactly
one. -/
theorem transport_failure_silent_counterexample :
    (mkConfig { silent := some true, endpoint := some "https://ex.example/logs" }
        "node").silent = true ∧
    (mkConfig { silent := some true, endpoint := some "https://ex.example/logs" }
        "node").endpoint = "https://ex.example/logs" ∧
    levelsIncludes
      (mkConfig { silent := some true, endpoint := some "https://ex.example/logs" }
        "node").allowedLevels "error" = Except.ok true ∧
    sendToServerIQ1
        (mkConfig { silent := some true, endpoint := some "https://ex.example/logs" }
          "node") "error" [JSVal.vstr "x"] [] (Except.error "Network Error") =
      [Event.post "https://ex.example/logs" "error" [SVal.vstr "x"]] ∧
    errOutCount (sendToServerIQ1
        (mkConfig { silent := some true, endpoint := some "https://ex.example/logs" }
          "node") "error" [JSVal.vstr "x"] [] (Except.error "Network Error")) = 0 := by
  refine ⟨rfl, rfl, rfl, rfl, rfl⟩

/-- Claim C7 (amended): with an endpoint configured, a transport failure
never raises past the logging call site, and it produces exactly one
message describing the failure through the pre-capture original error
entry point — UNLESS the richer variant is configured silent, in which
case the failure is swallowed with no message (the simple variant reports
unconditionally).  The part_002 conjunct assumes rendering succeeded (a
transport failure presupposes the POST was reached); the CT conjunct
likewise assumes the payload serialized; the no-raise conjunct assumes the
call is inside C2's proviso — `allowedLevels` answers `.includes` and heap
Error stacks are benign — whose two escapes throw before any POST is
attempted (see C2). -/
theorem transport_failure_swallowed_and_reported_unless_silent
    (cfg : Config) (cfgCT : ConfigCT) (level : String) (args : List JSVal)
    (h : Heap) (e : JSErr) (m : String) (parts : List String)
    (hend : cfg.endpoint ≠ "") (hendCT : cfgCT.endpoint ≠ "")
    (hfmt : formatConsoleLike h args = Except.ok m)
    (hjson : exceptSeq (args.map (fun a =>
        if typeofIsObject a then jsonStringify h a else jsToString h a)) =
      Except.ok parts) :
    (postCount (sendToServerIQ1 cfg level args h (Except.error e)) = 1 ∧
     errOutCount (sendToServerIQ1 cfg level args h (Except.error e)) =
       (if cfg.silent then 0 else 1)) ∧
    (postCount (sendToServerIQ2 cfg level args h (Except.error e)) = 1 ∧
     errOutCount (sendToServerIQ2 cfg level args h (Except.error e)) =
       (if cfg.silent then 0 else 1)) ∧
    (postCount (sendToServerCT cfgCT level args h (Except.error e)).1 = 1 ∧
     errOutCount (sendToServerCT cfgCT level args h (Except.error e)).1 = 1 ∧
     (sendToServerCT cfgCT level args h (Except.error e)).2 = Except.ok ()) ∧
    (∀ (rev : Rev) (host : Host) (b : Bool),
      level ∈ ["log", "info", "warn", "error", "debug"] →
      levelsIncludes cfg.allowedLevels level = Except.ok b →
      benignErrStacks h = true →
      (handleLogIQ rev cfg host h level args (Except.error e)).2 =
        Except.ok ()) := by
  refine ⟨?_, ?_, ?_, ?_⟩
  · by_cases hs : cfg.silent = true <;>
      simp [sendToServerIQ1, hend, hs, postCount, errOutCount, failureReport,
        List.countP_cons, List.countP_nil]
  · by_cases hs : cfg.silent = true <;>
      simp [sendToServerIQ2, hend, hs, hfmt, postCount, errOutCount,
        failureReport, List.countP_cons, List.countP_nil]
  · simp [sendToServerCT, hendCT, hjson, postCount, errOutCount,
      List.countP_cons, List.countP_nil]
  · intro rev host b hl hlv hb
    exact handleLogIQ_sync_ok rev cfg host h level args (Except.error e) b hl hlv hb

/-- Witness for amended C7: non-silent configuration with an explicit
endpoint, a plain string argument, a failing transport. -/
theorem transport_failure_swallowed_witness :
    postCount (sendToServerIQ1
      (mkConfig { endpoint := some "https://ex.example/logs" } "node")
      "error" [JSVal.vstr "x"] [] (Except.error "Network Error")) = 1 :=
  (transport_failure_swallowed_and_reported_unless_silent
    (mkConfig { endpoint := some "https://ex.example/logs" } "node")
    (mkConfigCT {}) "error" [JSVal.vstr "x"] [] "Network Error" "x" ["x"]
    (by decide) (by decide) (by rfl) (by rfl)).1.1

/-- Counterexample to C8 as stated: at the DEFAULT configuration
(autoTraceErrors on, silent off, enhanceErrors on) in a Node process,
calling the error-level entry point (the capture wrapper, and also the
bare level wrapper) with an `Error` argument emits NO additional
trace-level line: `_handleLog` first replaces every Error argument with a
plain enhanced record, so its `instanceof Error` search finds nothing, and
the synthetic-stack fallback is, in the code, reserved for the BROWSER
environment (the claim expects it in the server environment). -/
theorem autotrace_enhanced_error_no_trace_counterexample :
    (mkConfig {} "node").autoTraceErrors = true ∧
    (mkConfig {} "node").silent = false ∧
    (mkConfig {} "node").enhanceErrors = true ∧
    isErrRef [HObj.err "Error" "boom" (JSVal.vstr "stackline") []]
      (JSVal.ref 0) = true ∧
    traceOuts (consoleErrorEntryIQ Rev.v1 (mkConfig {} "node") defaultHost
        [HObj.err "Error" "boom" (JSVal.vstr "stackline") []] [JSVal.ref 0]
        (Except.ok ()) (Except.ok ())).1 = [] ∧
    traceOuts (handleLogIQ Rev.v1 (mkConfig {} "node") defaultHost
        [HObj.err "Error" "boom" (JSVal.vstr "stackline") []] "error"
        [JSVal.ref 0] (Except.ok ())).1 = [] := by
  exact ⟨rfl, rfl, rfl, rfl, rfl, rfl⟩

/-- Claim C8 (amended): only when enhancement is DISABLED does an
error-level call with an `Error` argument (first one with a truthy stack)
produce exactly one additional local trace line carrying that stack; and
when no `instanceof Error` argument remains, the synthetic-stack fallback
fires in the BROWSER environment only — never in the server environment
(the claim says server-only). -/
theorem autotrace_emits_stack_when_not_enhanced
    (rev : Rev) (cfg : Config) (host : Host) (h : Heap) (args : List JSVal)
    (net : Except JSErr Unit) (a : JSVal) (b : Bool)
    (henh : cfg.enhanceErrors = false) (hsil : cfg.silent = false)
    (hat : cfg.autoTraceErrors = true)
    (hlv : levelsIncludes cfg.allowedLevels "error" = Except.ok b)
    (hfind : args.find? (fun x => isErrRef h x) = some a)
    (hst : jsTruthy (errStackOf h a) = true) :
    traceOuts (handleLogIQ rev cfg host h "error" args net).1 =
      [Event.out Slot.trace [errStackOf h a]] ∧
    (∀ args', args'.find? (fun x => isErrRef h x) = none →
      traceOuts (handleLogIQ rev cfg host h "error" args' net).1 =
        (if cfg.environment = "browser" then
          [Event.out Slot.trace [JSVal.vstr host.freshStack]] else [])) := by
  have hsd := sendDecision_ok cfg.endpoint cfg.allowedLevels "error" b hlv
  constructor
  · simp [handleLogIQ, enhanceArgs_id cfg host _ henh, hsd, hsil, hat,
      autoTraceTail, hfind, hst, applyColorAndLog, levelSlot, applyColor,
      traceOuts_append, traceOuts_ite, traceOuts_sendToServerIQ,
      traceOuts_nil, traceOuts_cons_error, traceOuts_cons_trace]
  · intro args' hfind'
    by_cases hb : cfg.environment = "browser" <;>
      simp [handleLogIQ, enhanceArgs_id cfg host _ henh, hsd, hsil, hat,
        autoTraceTail, hfind', hb, applyColorAndLog, levelSlot, applyColor,
        traceOuts_append, traceOuts_ite, traceOuts_sendToServerIQ,
        traceOuts_nil, traceOuts_cons_error, traceOuts_cons_trace]

/-- Witness for amended C8: enhancement disabled, one Error argument with
stack "stackline". -/
theorem autotrace_emits_stack_witness :
    traceOuts (handleLogIQ Rev.v1 (mkConfig { enhanceErrors := some false } "node")
        defaultHost [HObj.err "Error" "boom" (JSVal.vstr "stackline") []] "error"
        [JSVal.ref 0] (Except.ok ())).1 =
      [Event.out Slot.trace
        [errStackOf [HObj.err "Error" "boom" (JSVal.vstr "stackline") []]
          (JSVal.ref 0)]] :=
  (autotrace_emits_stack_when_not_enhanced Rev.v1
    (mkConfig { enhanceErrors := some false } "node") defaultHost
    [HObj.err "Error" "boom" (JSVal.vstr "stackline") []] [JSVal.ref 0]
    (Except.ok ()) (JSVal.ref 0) true rfl rfl rfl (by rfl) (by rfl)
    (by decide)).1

/-- Claim C1 (the code contradicts its own documentation — restore's doc
comment says "Reset console to original behavior and remove error
handlers" — and its own test "should restore original console methods",
which expects `console.text` undefined and `console.error` restored):
after Initialize then Restore on a fresh default-configured engine in a
Node process, the five standard slots are restored, but `console.text`
still holds the engine's wrapper (`this._textWrapper` is never assigned,
so the deletion guard never fires), every pass-through slot still holds
the engine's wrapper (they were never recorded in `_consoleWrappers`),
`console.error` ends up holding the engine's own level wrapper (the
captured `originalConsoleError`), and the engine's uncaughtException /
unhandledRejection listeners remain installed (nothing was remembered to
reattach). -/
theorem init_then_restore_leaves_residue :
    c1AfterRestore.2.1 Slot.log = pristineConsole Slot.log ∧
    c1AfterRestore.2.1 Slot.info = pristineConsole Slot.info ∧
    c1AfterRestore.2.1 Slot.warn = pristineConsole Slot.warn ∧
    c1AfterRestore.2.1 Slot.debug = pristineConsole Slot.debug ∧
    c1AfterRestore.2.1 Slot.text = FnId.textWrap 0 ∧
    c1AfterRestore.2.1 Slot.text ≠ pristineConsole Slot.text ∧
    c1AfterRestore.2.1 Slot.dir = FnId.otherWrap 0 Slot.dir ∧
    c1AfterRestore.2.1 Slot.table = FnId.otherWrap 0 Slot.table ∧
    c1AfterRestore.2.1 Slot.time = FnId.otherWrap 0 Slot.time ∧
    c1AfterRestore.2.1 Slot.timeEnd = FnId.otherWrap 0 Slot.timeEnd ∧
    c1AfterRestore.2.1 Slot.trace = FnId.otherWrap 0 Slot.trace ∧
    c1AfterRestore.2.1 Slot.assert = FnId.otherWrap 0 Slot.assert ∧
    c1AfterRestore.2.1 Slot.error = FnId.stdWrap 0 Slot.error ∧
    c1AfterRestore.2.1 Slot.error ≠ pristineConsole Slot.error ∧
    c1AfterRestore.2.2.uncaught = [FnId.uncaughtHook 0] ∧
    c1AfterRestore.2.2.rejection = [FnId.rejectionHook 0] := by
  exact ⟨rfl, rfl, rfl, rfl, rfl, by decide, rfl, rfl, rfl, rfl, rfl, rfl,
    rfl, by decide, rfl, rfl⟩

/-- Counterexample to C4 as stated: ConsoleText's restore performs NO
reference-identity check — instance A's restore overwrites `console.log`
(currently occupied by instance B's wrapper) with A's snapshot, and
unconditionally deletes `console.text` (B's), instead of no-opping. -/
theorem restore_unconditional_counterexample :
    ctConsoleB Slot.log = FnId.ctWrap 1 Slot.log ∧
    ctConsoleARestored Slot.log = FnId.host Slot.log ∧
    ctConsoleARestored Slot.log ≠ ctConsoleB Slot.log ∧
    ctConsoleB Slot.text = FnId.ctTextWrap 1 ∧
    ctConsoleARestored Slot.text = FnId.undef := by
  exact ⟨rfl, rfl, by decide, rfl, rfl⟩

/-- Claim C4 (amended): the RICHER variant's restore is per-slot guarded
by reference identity — a slot whose current occupant is not the wrapper
this instance recorded is left untouched, and a slot still holding the
recorded wrapper is restored to the snapshot — except for two code paths
the claim does not admit: when `captureConsoleErrors` was active, the
`error` slot is unconditionally overwritten with the captured reference,
and the SIMPLE variant's restore overwrites every snapshotted slot with no
check at all (see the counterexample). -/
theorem restore_foreign_slot_noop
    (inst : IQInst) (c : Console) (hk : Hooks) (s : Slot)
    (hinit : inst.initialized = true)
    (hw : jsUndefEq (c s) (inst.consoleWrappers s) = false)
    (ht : s = Slot.text → jsUndefEq (c Slot.text) inst.textWrapper = false)
    (he : s = Slot.error →
      inst.cfg.captureConsoleErrors = false ∨
        inst.originalConsoleError = none) :
    (restoreIQ inst c hk).2.1 s = c s ∧
    (∀ s' : Slot, inst.consoleWrappers s' = some (c s') →
      s' ≠ Slot.text → s' ≠ Slot.error →
      (restoreIQ inst c hk).2.1 s' = inst.originalConsole s') := by
  constructor
  · by_cases hse : s = Slot.error
    · subst hse
      rcases he rfl with hcap | hoce
      · simp [restoreIQ, hinit, hcap, hw]
      · simp [restoreIQ, hinit, hoce, hw]
    · by_cases hst : s = Slot.text
      · subst hst
        simp [restoreIQ, hinit, hw, ht rfl, hse]
      · simp [restoreIQ, hinit, hw, hst, hse]
  · intro s' hrec hs't hs'e
    have hid : jsUndefEq (c s') (inst.consoleWrappers s') = true := by
      simp [jsUndefEq, hrec]
    simp [restoreIQ, hinit, hid, hs't, hs'e]

/-- Witness for amended C4: the C1-scenario instance restoring while a
foreign function occupies `console.log` leaves that slot untouched. -/
theorem restore_foreign_slot_noop_witness :
    (restoreIQ c1AfterInit.1 foreignConsole c1AfterInit.2.2).2.1 Slot.log =
      FnId.foreignFn 7 :=
  (restore_foreign_slot_noop c1AfterInit.1 foreignConsole c1AfterInit.2.2
    Slot.log (by decide) (by decide) (by decide) (by decide)).1

/-- Counterexample to C9 as stated: the part_001 serializer
(`_serializeObject`, a cited source of the claim) violates the property in
both directions — a TOP-LEVEL Error serializes to exactly
`__type`/`name`/`message`/`stack`, DROPPING its enumerable own property
`code`, and a NESTED Error (its inner `serialize` closure has no
`instanceof Error` case) serializes as a plain object of custom properties
with no tag and no name/message/stack at all. -/
theorem error_serialization_drops_extras_counterexample :
    serializeObject [HObj.err "Error" "boom" (JSVal.vstr "trace-lines")
        [("code", JSVal.vnum 42)]] 5 (JSVal.ref 0) 0 =
      SVal.obj [("__type", SVal.vstr "Error"), ("name", SVal.vstr "Error"),
        ("message", SVal.vstr "boom"), ("stack", SVal.vstr "trace-lines")] ∧
    serializeObject [HObj.err "Error" "boom" (JSVal.vstr "trace-lines")
        [("code", JSVal.vnum 42)]] 5 (JSVal.ref 0) 0 ≠
      SVal.obj [("__type", SVal.vstr "Error"), ("name", SVal.vstr "Error"),
        ("message", SVal.vstr "boom"), ("stack", SVal.vstr "trace-lines"),
        ("code", SVal.vnum 42)] ∧
    serializeObject [HObj.obj [("e", JSVal.ref 1)] true,
        HObj.err "Error" "boom" (JSVal.vstr "trace-lines")
          [("code", JSVal.vnum 42)]] 5
        (JSVal.ref 0) 0 =
      SVal.obj [("e", SVal.obj [("code", SVal.vnum 42)])] := by
  refine ⟨rfl, ?_, rfl⟩
  intro hcontr
  rw [show serializeObject [HObj.err "Error" "boom" (JSVal.vstr "trace-lines")
      [("code", JSVal.vnum 42)]] 5 (JSVal.ref 0) 0 =
    SVal.obj [("__type", SVal.vstr "Error"), ("name", SVal.vstr "Error"),
      ("message", SVal.vstr "boom"), ("stack", SVal.vstr "trace-lines")]
    from rfl] at hcontr
  simp at hcontr

/-- Claim C9 (amended): the REVISED serializer `_prepareForSerialization`
(part_002) maps an Error reference at ANY nesting depth within the budget,
not yet visited, to the tagged record `__type`/`name`/`message`/`stack`
followed by its custom own properties, each serialized recursively at
`depth + 1` under the same budget and visited set; the superseded part_001
`_serializeObject` does not (see the counterexample).  The closed conjunct
shows a nested Error one level down rendered in full. -/
theorem prepare_tags_errors_at_any_depth
    (h : Heap) (maxD fuel depth : Nat) (seen : List Nat) (r : Nat)
    (n m : String) (s : JSVal) (extra : List (String × JSVal))
    (hget : h[r]? = some (HObj.err n m s extra))
    (hseen : r ∉ seen) (hdepth : depth ≤ maxD)
    (hfuel : maxD + 1 ≤ fuel + depth) (hfuel1 : 1 ≤ fuel) :
    (∃ fs seen',
      serFieldsWith (prepFuel h maxD fuel) (depth + 1) extra (r :: seen) =
        some (fs, seen') ∧
      prepFuel h maxD (fuel + 1) depth (JSVal.ref r) seen =
        some (SVal.obj ([("__type", SVal.vstr "Error"), ("name", SVal.vstr n),
          ("message", SVal.vstr m), ("stack", pvalToS s)] ++ fs), seen')) ∧
    prepare [HObj.obj [("e", JSVal.ref 1)] true,
        HObj.err "Error" "boom" (JSVal.vstr "trace-lines")
          [("code", JSVal.vnum 42)]] 5
        (JSVal.ref 0) =
      SVal.obj [("e", SVal.obj [("__type", SVal.vstr "Error"),
        ("name", SVal.vstr "Error"), ("message", SVal.vstr "boom"),
        ("stack", SVal.vstr "trace-lines"), ("code", SVal.vnum 42)])] := by
  constructor
  · have hrec : ∀ (v' : JSVal) (seen' : List Nat),
        (prepFuel h maxD fuel (depth + 1) v' seen').isSome = true :=
      fun v' seen' =>
        prepFuel_isSome h maxD fuel (depth + 1) v' seen' hfuel1 (by omega)
    rcases Option.isSome_iff_exists.mp
        (serFieldsWith_isSome (prepFuel h maxD fuel) (depth + 1) hrec extra
          (r :: seen)) with ⟨⟨fs, seen'⟩, hfs⟩
    exact ⟨fs, seen', hfs, by
      simp [prepFuel, Nat.not_lt.mpr hdepth, hseen, hget, hfs]⟩
  · rfl

/-- Witness for amended C9: the Error with a custom `code` property at
depth 1 of a two-object heap. -/
theorem prepare_tags_errors_witness :
    ∃ fs seen',
      serFieldsWith (prepFuel [HObj.obj [("e", JSVal.ref 1)] true,
          HObj.err "Error" "boom" (JSVal.vstr "trace-lines")
            [("code", JSVal.vnum 42)]] 5 6)
          2 [("code", JSVal.vnum 42)] [1, 0] = some (fs, seen') ∧
      prepFuel [HObj.obj [("e", JSVal.ref 1)] true,
          HObj.err "Error" "boom" (JSVal.vstr "trace-lines")
            [("code", JSVal.vnum 42)]] 5
          (6 + 1) 1 (JSVal.ref 1) [0] =
        some (SVal.obj ([("__type", SVal.vstr "Error"),
          ("name", SVal.vstr "Error"), ("message", SVal.vstr "boom"),
          ("stack", SVal.vstr "trace-lines")] ++ fs), seen') :=
  (prepare_tags_errors_at_any_depth
    [HObj.obj [("e", JSVal.ref 1)] true,
     HObj.err "Error" "boom" (JSVal.vstr "trace-lines")
       [("code", JSVal.vnum 42)]]
    5 6 1 [0] 1 "Error" "boom" (JSVal.vstr "trace-lines")
    [("code", JSVal.vnum 42)]
    (by rfl) (by decide) (by decide) (by decide) (by decide)).1

/-- Beyond the budget the expected output is the placeholder whatever the
node is. -/
theorem serialSpec_deep (maxD depth : Nat) (t : TVal) (hd : maxD < depth) :
    serialSpec maxD depth t = SVal.vstr "[Max Depth Reached]" := by
  cases t <;> simp [serialSpec, hd]

/-- A prefix segment of a held segment is held. -/
theorem hasSeg_append_left (H : Heap) (base : Nat) (s1 s2 : List HObj)
    (h : hasSeg H base (s1 ++ s2)) : hasSeg H base s1 := by
  intro i hi
  have h2 := h i (by simp; omega)
  rw [h2, List.getElem?_append, if_pos hi]

/-- A suffix segment of a held segment is held at the shifted index. -/
theorem hasSeg_append_right (H : Heap) (base : Nat) (s1 s2 : List HObj)
    (h : hasSeg H base (s1 ++ s2)) : hasSeg H (base + s1.length) s2 := by
  intro i hi
  have h2 := h (s1.length + i) (by simp; omega)
  rw [show base + s1.length + i = base + (s1.length + i) from by omega, h2,
    List.getElem?_append, if_neg (by omega)]
  congr 1
  omega

/-- The revised serializer agrees with the depth-budget specification on
every tree-shaped value laid out in the heap: joint fuel induction for
values, array elements and object fields.  `seen` may hold any references
outside the value's segment; the output visited set stays within the input
plus the segment (which is what lets sibling branches coexist). -/
theorem prep_encoded_main (H : Heap) (maxD : Nat) :
    ∀ fuel : Nat,
      (∀ (t : TVal) (base : Nat) (seen : List Nat) (depth : Nat),
        hasSeg H base (encodeAt t base).2 →
        (∀ x ∈ seen, x < base ∨ base + (encodeAt t base).2.length ≤ x) →
        1 ≤ fuel → maxD + 2 ≤ fuel + depth →
        ∃ seen',
          prepFuel H maxD fuel depth (encodeAt t base).1 seen =
            some (serialSpec maxD depth t, seen') ∧
          ∀ x ∈ seen',
            x ∈ seen ∨ (base ≤ x ∧ x < base + (encodeAt t base).2.length)) ∧
      (∀ (ts : List TVal) (base : Nat) (seen : List Nat) (depth : Nat),
        hasSeg H base (encodeAtList ts base).2 →
        (∀ x ∈ seen, x < base ∨ base + (encodeAtList ts base).2.length ≤ x) →
        1 ≤ fuel → maxD + 2 ≤ fuel + depth →
        ∃ seen',
          serListWith (prepFuel H maxD fuel) depth (encodeAtList ts base).1 seen =
            some (serialSpecList maxD depth ts, seen') ∧
          ∀ x ∈ seen',
            x ∈ seen ∨ (base ≤ x ∧ x < base + (encodeAtList ts base).2.length)) ∧
      (∀ (fs : List (String × TVal)) (base : Nat) (seen : List Nat) (depth : Nat),
        hasSeg H base (encodeAtFields fs base).2 →
        (∀ x ∈ seen, x < base ∨ base + (encodeAtFields fs base).2.length ≤ x) →
        1 ≤ fuel → maxD + 2 ≤ fuel + depth →
        ∃ seen',
          serFieldsWith (prepFuel H maxD fuel) depth (encodeAtFields fs base).1 seen =
            some (serialSpecFields maxD depth fs, seen') ∧
          ∀ x ∈ seen',
            x ∈ seen ∨ (base ≤ x ∧ x < base + (encodeAtFields fs base).2.length)) := by
  intro fuel
  induction fuel with
  | zero =>
    refine ⟨?_, ?_, ?_⟩ <;> intro _ _ _ _ _ _ h1 _ <;> exact absurd h1 (by omega)
  | succ f ih =>
    have hV : ∀ (t : TVal) (base : Nat) (seen : List Nat) (depth : Nat),
        hasSeg H base (encodeAt t base).2 →
        (∀ x ∈ seen, x < base ∨ base + (encodeAt t base).2.length ≤ x) →
        maxD + 2 ≤ f + 1 + depth →
        ∃ seen',
          prepFuel H maxD (f + 1) depth (encodeAt t base).1 seen =
            some (serialSpec maxD depth t, seen') ∧
          ∀ x ∈ seen',
            x ∈ seen ∨ (base ≤ x ∧ x < base + (encodeAt t base).2.length) := by
      intro t base seen depth hseg hav hcond
      by_cases hd : maxD < depth
      · refine ⟨seen, ?_, fun x hx => Or.inl hx⟩
        rw [serialSpec_deep maxD depth t hd]
        cases t <;> simp [encodeAt, prepFuel, hd]
      · have h1f : 1 ≤ f := by omega
        cases t with
        | vundef =>
          exact ⟨seen, by simp [encodeAt, prepFuel, serialSpec, hd, pvalToS],
            fun x hx => Or.inl hx⟩
        | vnull =>
          exact ⟨seen, by simp [encodeAt, prepFuel, serialSpec, hd, pvalToS],
            fun x hx => Or.inl hx⟩
        | vbool b =>
          exact ⟨seen, by simp [encodeAt, prepFuel, serialSpec, hd, pvalToS],
            fun x hx => Or.inl hx⟩
        | vnum n =>
          exact ⟨seen, by simp [encodeAt, prepFuel, serialSpec, hd, pvalToS],
            fun x hx => Or.inl hx⟩
        | vstr s =>
          exact ⟨seen, by simp [encodeAt, prepFuel, serialSpec, hd, pvalToS],
            fun x hx => Or.inl hx⟩
        | vfunc fn =>
          exact ⟨seen, by simp [encodeAt, prepFuel, serialSpec, hd, pvalToS],
            fun x hx => Or.inl hx⟩
        | arr ts =>
          simp only [encodeAt] at hseg hav ⊢
          have hrnot : base + (encodeAtList ts base).2.length ∉ seen := by
            intro hmem
            rcases hav _ hmem with hlt | hge
            · omega
            · simp at hge
          have hlook : H[base + (encodeAtList ts base).2.length]? =
              some (HObj.arr (encodeAtList ts base).1) := by
            have h2 := hseg (encodeAtList ts base).2.length (by simp)
            rw [h2, List.getElem?_concat_length]
          have hsegp : hasSeg H base (encodeAtList ts base).2 :=
            hasSeg_append_left H base _ _ hseg
          have havc : ∀ x ∈ (base + (encodeAtList ts base).2.length) :: seen,
              x < base ∨ base + (encodeAtList ts base).2.length ≤ x := by
            intro x hx
            rcases List.mem_cons.mp hx with hx | hx
            · subst hx
              right
              omega
            · rcases hav x hx with hlt | hge
              · exact Or.inl hlt
              · simp at hge
                right
                omega
          obtain ⟨seen₁, hrun, hbound⟩ := ih.2.1 ts base
            ((base + (encodeAtList ts base).2.length) :: seen) (depth + 1)
            hsegp havc h1f (by omega)
          refine ⟨seen₁, ?_, ?_⟩
          · simp [prepFuel, hd, hrnot, hlook, hrun, serialSpec]
          · intro x hx
            rcases hbound x hx with hx' | hrange
            · rcases List.mem_cons.mp hx' with hx' | hx'
              · subst hx'
                right
                simp
              · exact Or.inl hx'
            · right
              simp
              omega
        | obj fs =>
          simp only [encodeAt] at hseg hav ⊢
          have hrnot : base + (encodeAtFields fs base).2.length ∉ seen := by
            intro hmem
            rcases hav _ hmem with hlt | hge
            · omega
            · simp at hge
          have hlook : H[base + (encodeAtFields fs base).2.length]? =
              some (HObj.obj (encodeAtFields fs base).1 true) := by
            have h2 := hseg (encodeAtFields fs base).2.length (by simp)
            rw [h2, List.getElem?_concat_length]
          have hsegp : hasSeg H base (encodeAtFields fs base).2 :=
            hasSeg_append_left H base _ _ hseg
          have havc : ∀ x ∈ (base + (encodeAtFields fs base).2.length) :: seen,
              x < base ∨ base + (encodeAtFields fs base).2.length ≤ x := by
            intro x hx
            rcases List.mem_cons.mp hx with hx | hx
            · subst hx
              right
              omega
            · rcases hav x hx with hlt | hge
              · exact Or.inl hlt
              · simp at hge
                right
                omega
          obtain ⟨seen₁, hrun, hbound⟩ := ih.2.2 fs base
            ((base + (encodeAtFields fs base).2.length) :: seen) (depth + 1)
            hsegp havc h1f (by omega)
          refine ⟨seen₁, ?_, ?_⟩
          · simp [prepFuel, hd, hrnot, hlook, hrun, serialSpec]
          · intro x hx
            rcases hbound x hx with hx' | hrange
            · rcases List.mem_cons.mp hx' with hx' | hx'
              · subst hx'
                right
                simp
              · exact Or.inl hx'
            · right
              simp
              omega
        | err n m s fs =>
          simp only [encodeAt] at hseg hav ⊢
          have hrnot : base + (encodeAtFields fs base).2.length ∉ seen := by
            intro hmem
            rcases hav _ hmem with hlt | hge
            · omega
            · simp at hge
          have hlook : H[base + (encodeAtFields fs base).2.length]? =
              some (HObj.err n m (JSVal.vstr s) (encodeAtFields fs base).1) := by
            have h2 := hseg (encodeAtFields fs base).2.length (by simp)
            rw [h2, List.getElem?_concat_length]
          have hsegp : hasSeg H base (encodeAtFields fs base).2 :=
            hasSeg_append_left H base _ _ hseg
          have havc : ∀ x ∈ (base + (encodeAtFields fs base).2.length) :: seen,
              x < base ∨ base + (encodeAtFields fs base).2.length ≤ x := by
            intro x hx
            rcases List.mem_cons.mp hx with hx | hx
            · subst hx
              right
              omega
            · rcases hav x hx with hlt | hge
              · exact Or.inl hlt
              · simp at hge
                right
                omega
          obtain ⟨seen₁, hrun, hbound⟩ := ih.2.2 fs base
            ((base + (encodeAtFields fs base).2.length) :: seen) (depth + 1)
            hsegp havc h1f (by omega)
          refine ⟨seen₁, ?_, ?_⟩
          · simp [prepFuel, hd, hrnot, hlook, hrun, serialSpec, pvalToS]
          · intro x hx
            rcases hbound x hx with hx' | hrange
            · rcases List.mem_cons.mp hx' with hx' | hx'
              · subst hx'
                right
                simp
              · exact Or.inl hx'
            · right
              simp
              omega
    have hL : ∀ (ts : List TVal) (base : Nat) (seen : List Nat) (depth : Nat),
        hasSeg H base (encodeAtList ts base).2 →
        (∀ x ∈ seen, x < base ∨ base + (encodeAtList ts base).2.length ≤ x) →
        maxD + 2 ≤ f + 1 + depth →
        ∃ seen',
          serListWith (prepFuel H maxD (f + 1)) depth (encodeAtList ts base).1 seen =
            some (serialSpecList maxD depth ts, seen') ∧
          ∀ x ∈ seen',
            x ∈ seen ∨ (base ≤ x ∧ x < base + (encodeAtList ts base).2.length) := by
      intro ts
      induction ts with
      | nil =>
        intro base seen depth _ _ _
        exact ⟨seen, by simp [encodeAtList, serListWith, serialSpecList],
          fun x hx => Or.inl hx⟩
      | cons t ts ihl =>
        intro base seen depth hseg hav hcond
        simp only [encodeAtList] at hseg hav ⊢
        have hsegp : hasSeg H base (encodeAt t base).2 :=
          hasSeg_append_left H base _ _ hseg
        have hsegq : hasSeg H (base + (encodeAt t base).2.length)
            (encodeAtList ts (base + (encodeAt t base).2.length)).2 :=
          hasSeg_append_right H base _ _ hseg
        have havp : ∀ x ∈ seen, x < base ∨ base + (encodeAt t base).2.length ≤ x := by
          intro x hx
          rcases hav x hx with hlt | hge
          · exact Or.inl hlt
          · simp at hge
            right
            omega
        obtain ⟨seen₁, hrun1, hb1⟩ := hV t base seen depth hsegp havp hcond
        have havq : ∀ x ∈ seen₁, x < base + (encodeAt t base).2.length ∨
            base + (encodeAt t base).2.length +
              (encodeAtList ts (base + (encodeAt t base).2.length)).2.length ≤ x := by
          intro x hx
          rcases hb1 x hx with hx' | hrange
          · rcases hav x hx' with hlt | hge
            · left
              omega
            · simp at hge
              right
              omega
          · left
            omega
        obtain ⟨seen₂, hrun2, hb2⟩ := ihl (base + (encodeAt t base).2.length) seen₁
          depth hsegq havq hcond
        refine ⟨seen₂, ?_, ?_⟩
        · simp [serListWith, hrun1, hrun2, serialSpecList]
        · intro x hx
          rcases hb2 x hx with hx' | hrange
          · rcases hb1 x hx' with hx'' | hr2
            · exact Or.inl hx''
            · right
              simp
              omega
          · right
            simp
            omega
    have hF : ∀ (fs : List (String × TVal)) (base : Nat) (seen : List Nat) (depth : Nat),
        hasSeg H base (encodeAtFields fs base).2 →
        (∀ x ∈ seen, x < base ∨ base + (encodeAtFields fs base).2.length ≤ x) →
        maxD + 2 ≤ f + 1 + depth →
        ∃ seen',
          serFieldsWith (prepFuel H maxD (f + 1)) depth (encodeAtFields fs base).1 seen =
            some (serialSpecFields maxD depth fs, seen') ∧
          ∀ x ∈ seen',
            x ∈ seen ∨ (base ≤ x ∧ x < base + (encodeAtFields fs base).2.length) := by
      intro fs
      induction fs with
      | nil =>
        intro base seen depth _ _ _
        exact ⟨seen, by simp [encodeAtFields, serFieldsWith, serialSpecFields],
          fun x hx => Or.inl hx⟩
      | cons kt fs ihf =>
        obtain ⟨k, t⟩ := kt
        intro base seen depth hseg hav hcond
        simp only [encodeAtFields] at hseg hav ⊢
        have hsegp : hasSeg H base (encodeAt t base).2 :=
          hasSeg_append_left H base _ _ hseg
        have hsegq : hasSeg H (base + (encodeAt t base).2.length)
            (encodeAtFields fs (base + (encodeAt t base).2.length)).2 :=
          hasSeg_append_right H base _ _ hseg
        have havp : ∀ x ∈ seen, x < base ∨ base + (encodeAt t base).2.length ≤ x := by
          intro x hx
          rcases hav x hx with hlt | hge
          · exact Or.inl hlt
          · simp at hge
            right
            omega
        obtain ⟨seen₁, hrun1, hb1⟩ := hV t base seen depth hsegp havp hcond
        have havq : ∀ x ∈ seen₁, x < base + (encodeAt t base).2.length ∨
            base + (encodeAt t base).2.length +
              (encodeAtFields fs (base + (encodeAt t base).2.length)).2.length ≤ x := by
          intro x hx
          rcases hb1 x hx with hx' | hrange
          · rcases hav x hx' with hlt | hge
            · left
              omega
            · simp at hge
              right
              omega
          · left
            omega
        obtain ⟨seen₂, hrun2, hb2⟩ := ihf (base + (encodeAt t base).2.length) seen₁
          depth hsegq havq hcond
        refine ⟨seen₂, ?_, ?_⟩
        · simp [serFieldsWith, hrun1, hrun2, serialSpecFields]
        · intro x hx
          rcases hb2 x hx with hx' | hrange
          · rcases hb1 x hx' with hx'' | hr2
            · exact Or.inl hx''
            · right
              simp
              omega
          · right
            simp
            omega
    exact ⟨fun t base seen depth hseg hav _ hcond => hV t base seen depth hseg hav hcond,
      fun ts base seen depth hseg hav _ hcond => hL ts base seen depth hseg hav hcond,
      fun fs base seen depth hseg hav _ hcond => hF fs base seen depth hseg hav hcond⟩

/-- Counterexample to C6 as stated: a value nested deeper than the budget
(`maxErrorDepth = 1`) in which ONE shared (acyclic) reference sits under
two keys at depth 1 — within the limit.  Branch `a` renders with its full
(truncated-at-depth) structure, but branch `b`, also at or under the
limit, renders as `[Circular Reference]` instead of retaining its
structure: the single visited set is threaded across sibling branches, so
second occurrences are cut even without a cycle. -/
theorem shared_reference_under_limit_counterexample :
    prepare sharedRef 1 (JSVal.ref 0) =
      SVal.obj [("a", SVal.obj [("c", SVal.vstr "[Max Depth Reached]")]),
        ("b", SVal.vstr "[Circular Reference]")] ∧
    prepare sharedRef 1 (JSVal.ref 0) ≠
      SVal.obj [("a", SVal.obj [("c", SVal.vstr "[Max Depth Reached]")]),
        ("b", SVal.obj [("c", SVal.vstr "[Max Depth Reached]")])] := by
  refine ⟨rfl, ?_⟩
  intro hcontr
  rw [show prepare sharedRef 1 (JSVal.ref 0) =
    SVal.obj [("a", SVal.obj [("c", SVal.vstr "[Max Depth Reached]")]),
      ("b", SVal.vstr "[Circular Reference]")] from rfl] at hcontr
  simp at hcontr

/-- Claim C6 (amended): for every TREE-SHAPED value — no reference reached
twice — and every budget, the revised serializer's output is exactly the
depth-budget specification `serialSpec`: every branch strictly deeper than
`maxErrorDepth` renders as the fixed `[Max Depth Reached]` placeholder
with recursion halted there, and every branch at or under the limit
retains its full structure.  The tree-shapedness proviso is forced by the
counterexample: a reference already visited renders as the circular
placeholder even when shallow and acyclic. -/
theorem prepare_matches_depth_budget_spec (maxD : Nat) (t : TVal) :
    prepare (encodeAt t 0).2 maxD (encodeAt t 0).1 = serialSpec maxD 0 t := by
  obtain ⟨seen', hrun, _⟩ :=
    ((prep_encoded_main (encodeAt t 0).2 maxD (maxD + 2)).1 t 0 [] 0
      (fun i hi => by simp)
      (fun x hx => absurd hx (List.not_mem_nil x))
      (by omega) (by omega))
  simp [prepare, hrun]

/-- Claim C10: with `maxErrorDepth` passed as 0 (or absent, or any falsy
value), the richer-variant constructor resolves `maxErrorDepth` to the
default 5, so a zero depth ceiling is unconfigurable. -/
theorem maxErrorDepth_zero_unconfigurable (c : ConfigInput) (env : String)
    (h : c.maxErrorDepth = some 0 ∨ c.maxErrorDepth = none) :
    (mkConfig c env).maxErrorDepth = 5 ∧
      ∀ c' : ConfigInput, (mkConfig c' env).maxErrorDepth ≠ 0 := by
  constructor
  · rcases h with h | h <;> simp [mkConfig, jsOrNat, h]
  · intro c'
    simp only [mkConfig, jsOrNat]
    match c'.maxErrorDepth with
    | none => simp
    | some n =>
      by_cases hn : n = 0 <;> simp [hn]

/-- Witness for C10 at the concrete input `\x7b maxErrorDepth: 0 \x7d`. -/
theorem maxErrorDepth_zero_unconfigurable_witness :
    (mkConfig { maxErrorDepth := some 0 } "node").maxErrorDepth = 5 :=
  (maxErrorDepth_zero_unconfigurable { maxErrorDepth := some 0 } "node"
    (Or.inl rfl)).1

end ConsoleTextSpec
